import Mathlib

/-!
# Verification of the Beggar card game backend

Shallow embedding of the game engine of this repository
(`src/services/gameService.ts` and the fuller iteration of the same service
that adds turn timers, single-player bots and extra validation fixes; the
latter is called the "main" iteration below, the former lives in the `GS`
namespace where the two iterations differ).

TypeScript values are modelled as follows: nullable strings become
`Option String`, arrays become `List`, numbers that the code only ever uses
as non-negative integers become `Nat`, the fractional bot scores become `ℚ`,
and methods that `return null` on rejection become `Option`-returning
functions (every `return null` in the source occurs before any mutation, so
`none` coincides with "the aggregate is unchanged").  `Math.random()` draws
are passed in as explicit parameters (a shuffled deck, a permutation of the
seat indices, a Boolean coin for the bot's strategic pass).
-/

set_option maxRecDepth 8000

/-- A card, exactly as in `models/card.ts`: nullable `suit`/`rank` strings,
joker and details markers, and the joker's nullable assigned rank/suit. -/
structure Card where
  suit : Option String
  rank : Option String
  isJoker : Bool
  isDetails : Bool
  assignedRank : Option String
  assignedSuit : Option String
deriving DecidableEq, Repr, Inhabited

/-- A player, as in `models/player.ts` (the `socketId` transport field is
omitted: the engine never reads it). -/
structure Player where
  id : String
  name : String
  hand : List Card
  title : Option String
  isBot : Bool := false
deriving DecidableEq, Repr, Inhabited

/-- The game aggregate, as in `models/game.ts` plus the `isSinglePlayer`
flag the main iteration stores on it. -/
structure Game where
  id : String
  players : List Player
  deck : List Card
  pile : List (List Card)
  currentTurn : Nat
  status : String
  passCount : Nat
  currentPattern : Option String
  lastPlayedPlayerId : Option String
  isTestMode : Bool
  passedPlayerIds : List String
  isSinglePlayer : Bool := false
deriving DecidableEq, Repr, Inhabited

/-- JavaScript truthiness of a nullable string: `null` and `""` are falsy. -/
def strTruthy : Option String → Bool
  | none => false
  | some s => !(s == "")

def suitsList : List String := ["hearts", "diamonds", "clubs", "spades"]

def ranksList : List String :=
  ["3", "4", "5", "6", "7", "8", "9", "10", "J", "Q", "K", "A", "2"]

/-- `createDeck`: 4 suits × 13 ranks, two jokers, one details card
(identical in both iterations of the service). -/
def createDeck : List Card :=
  (suitsList.flatMap fun suit => ranksList.map fun rank =>
    { suit := some suit, rank := some rank, isJoker := false, isDetails := false,
      assignedRank := none, assignedSuit := none }) ++
  [{ suit := some "joker1", rank := none, isJoker := true, isDetails := false,
     assignedRank := none, assignedSuit := none },
   { suit := some "joker2", rank := none, isJoker := true, isDetails := false,
     assignedRank := none, assignedSuit := none },
   { suit := none, rank := none, isJoker := false, isDetails := true,
     assignedRank := none, assignedSuit := none }]

/-- `cardId`: the string identity the engine uses to compare cards. -/
def cardId (card : Card) : String :=
  (card.suit.getD "none") ++ "-" ++ (card.rank.getD "none") ++ "-" ++
    (if card.isJoker then "true" else "false") ++ "-" ++
    (if card.isDetails then "true" else "false")

/-- A plain suit-and-rank card as `createDeck` builds it. -/
def plainCard (s r : String) : Card :=
  { suit := some s, rank := some r, isJoker := false, isDetails := false,
    assignedRank := none, assignedSuit := none }

def jokerCard1 : Card :=
  { suit := some "joker1", rank := none, isJoker := true, isDetails := false,
    assignedRank := none, assignedSuit := none }

def jokerCard2 : Card :=
  { suit := some "joker2", rank := none, isJoker := true, isDetails := false,
    assignedRank := none, assignedSuit := none }

def detailsCard : Card :=
  { suit := none, rank := none, isJoker := false, isDetails := true,
    assignedRank := none, assignedSuit := none }

/-- `getCardValue`: 999 for the details card, otherwise 3.. for the rank's
position in `ranksList` (the joker uses its assigned rank).  JavaScript
quirks preserved: a null or empty rank gives 0 (`rank ? ... : 0` with string
falsiness) and a rank missing from the list gives `indexOf`'s -1 plus 3 = 2. -/
def getCardValue (card : Card) : Nat :=
  if card.isDetails then 999
  else
    match (if card.isJoker then card.assignedRank else card.rank) with
    | none => 0
    | some r =>
      if r == "" then 0
      else
        match ranksList.findIdx? (fun s => s == r) with
        | some i => i + 3
        | none => 2

/-- The effective-card map used throughout the validator: a joker is read as
its assigned rank/suit, every other card as its face value. -/
def effectiveCard (c : Card) : Card :=
  { c with rank := if c.isJoker then c.assignedRank else c.rank,
           suit := if c.isJoker then c.assignedSuit else c.suit }

/-- Insertion of a card into a list sorted by ascending `getCardValue`;
models one step of `Array.prototype.sort` with the numeric comparator
`(a, b) => getCardValue(a) - getCardValue(b)`. -/
def insertByValue (c : Card) : List Card → List Card
  | [] => [c]
  | d :: ds =>
    if getCardValue c ≤ getCardValue d then c :: d :: ds else d :: insertByValue c ds

/-- `[...cards].sort((a, b) => getCardValue(a) - getCardValue(b))`. -/
def sortByValue : List Card → List Card
  | [] => []
  | c :: cs => insertByValue c (sortByValue cs)

/-- `every((c, i) => i === 0 || value(c) === value(prev) + 1)` over a sorted
list: adjacent values ascend by exactly one. -/
def chainByOne : List Card → Bool
  | [] => true
  | [_] => true
  | a :: b :: rest =>
    (getCardValue b == getCardValue a + 1) && chainByOne (b :: rest)

/-- `every((c, i) => i === 0 || c.suit === sorted[0].suit)`. -/
def allSameSuit (cards : List Card) : Bool :=
  match cards with
  | [] => true
  | c0 :: _ => cards.all (fun c => c.suit == c0.suit)

/-- All effective ranks equal the first card's effective rank
(`every(c => c.rank === cards[0].rank)` on the effective cards). -/
def allRanksEqualHead (cards : List Card) : Bool :=
  match cards with
  | [] => true
  | c0 :: _ => cards.all (fun c => c.rank == c0.rank)

/-- The joker-assignment guard: `card.isJoker && (!card.assignedRank ||
!card.assignedSuit)` (with JavaScript string falsiness). -/
def jokerUnassigned (c : Card) : Bool :=
  c.isJoker && (!(strTruthy c.assignedRank) || !(strTruthy c.assignedSuit))

/-- The pattern classification performed inline by the main iteration's
`validatePattern` on the effective cards (`none` = the code's
`return false` branches). -/
def classifyPattern (e : List Card) : Option String :=
  if e.length == 1 then some "single"
  else if e.length == 2 then
    if allRanksEqualHead e then some "pair"
    else
      if chainByOne (sortByValue e) && allSameSuit (sortByValue e) then some "consecutive"
      else none
  else if 3 ≤ e.length && e.length ≤ 4 && allRanksEqualHead e then
    some ("group-" ++ toString e.length)
  else if 2 ≤ e.length && e.length ≤ 13 then
    if chainByOne (sortByValue e) && allSameSuit (sortByValue e) then some "consecutive"
    else none
  else none

/-- `getPatternValue`: representative strength of a play — the lowest card
for singles and runs, the highest for pairs/groups; 0 when the pattern tag
is null/empty or the play is empty. -/
def getPatternValue (cards : List Card) (pattern : Option String) : Nat :=
  if !(strTruthy pattern) || cards.length == 0 then 0
  else if pattern.getD "" == "single" then
    getCardValue ((sortByValue cards).headD default)
  else if pattern.getD "" == "pair" || "group-".data.isPrefixOf (pattern.getD "").data then
    getCardValue ((sortByValue cards).getLastD default)
  else if pattern.getD "" == "consecutive" then
    getCardValue ((sortByValue cards).headD default)
  else 0

/-- `prevPattern && prevPattern.some(c => c.isDetails)`: the previous play
exists and contains the details card. -/
def prevHasDetails : Option (List Card) → Bool
  | some p => p.any (·.isDetails)
  | none => false

/-- `!currentPattern || (currentPattern && prevPattern && prevPattern.length
=== 0)`: no established family, or an (anomalous) empty previous play. -/
def freshRoundBypass (prevPattern : Option (List Card))
    (currentPattern : Option String) : Bool :=
  !(strTruthy currentPattern) ||
    (strTruthy currentPattern && prevPattern != none && (prevPattern.getD []).length == 0)

/-- The final strength comparison of `validatePattern`: with a previous play
present, the candidate must be strictly stronger. -/
def beatsPrev (cards : List Card) (prevPattern : Option (List Card))
    (currentPattern : Option String) : Bool :=
  match prevPattern with
  | none => true
  | some prev =>
    if getPatternValue (cards.map effectiveCard) currentPattern ≤
        getPatternValue (prev.map effectiveCard) currentPattern then false
    else true

/-- `validatePattern` of the main iteration (part_000 lines 973-1073):
includes the details-as-single restriction and the consecutive-run length
check that the `GS` iteration lacks. -/
def validatePattern (cards : List Card) (prevPattern : Option (List Card))
    (currentPattern : Option String) : Bool :=
  if cards.length == 0 then false
  else if cards.any (·.isDetails) then
    if cards.length != 1 then false
    else if strTruthy currentPattern && currentPattern != some "single" then false
    else true
  else if prevHasDetails prevPattern then false
  else if (cards.map effectiveCard).any jokerUnassigned then false
  else
    match classifyPattern (cards.map effectiveCard) with
    | none => false
    | some patternType =>
      if freshRoundBypass prevPattern currentPattern then true
      else if currentPattern != some patternType then false
      else if currentPattern == some "consecutive" && prevPattern != none &&
          (prevPattern.getD []).length != cards.length then false
      else beatsPrev cards prevPattern currentPattern

namespace GS

/-- The classification performed inline by `gameService.ts`'s
`validatePattern` (lines 552-572): a two-card non-pair falls through to the
generic 2..13-card run branch; behaviourally the branches coincide with the
main iteration's, but the code path differs so it is embedded separately. -/
def classifyPattern (e : List Card) : Option String :=
  if e.length == 1 then some "single"
  else if e.length == 2 && allRanksEqualHead e then some "pair"
  else if 3 ≤ e.length && e.length ≤ 4 && allRanksEqualHead e then
    some ("group-" ++ toString e.length)
  else if 2 ≤ e.length && e.length ≤ 13 then
    if chainByOne (sortByValue e) && allSameSuit (sortByValue e) then some "consecutive"
    else none
  else none

/-- `validatePattern` of `gameService.ts` (lines 519-598): no
details-as-single check against the established family, and no length check
for consecutive runs. -/
def validatePattern (cards : List Card) (prevPattern : Option (List Card))
    (currentPattern : Option String) : Bool :=
  if cards.length == 0 then false
  else if cards.any (·.isDetails) then
    if cards.length != 1 then false else true
  else if prevHasDetails prevPattern then false
  else if (cards.map effectiveCard).any jokerUnassigned then false
  else
    match GS.classifyPattern (cards.map effectiveCard) with
    | none => false
    | some patternType =>
      if freshRoundBypass prevPattern currentPattern then true
      else if currentPattern != some patternType then false
      else beatsPrev cards prevPattern currentPattern

end GS

/-! ## Players and hands -/

/-- `game.players.find(p => p.id === playerId)`. -/
def findPlayer (ps : List Player) (pid : String) : Option Player :=
  ps.find? (fun p => p.id == pid)

/-- Functional rendering of `player.hand = hand` where `player` is the first
player whose id matches (the object `Array.prototype.find` returns). -/
def modifyFirstHand (ps : List Player) (pid : String) (h : List Card) : List Player :=
  match ps with
  | [] => []
  | p :: rest =>
    if p.id == pid then { p with hand := h } :: rest
    else p :: modifyFirstHand rest pid h

/-- Lexicographic comparison of char lists by code point (the order
JavaScript's default `Array.prototype.sort` uses on these ASCII card ids). -/
def charsLe : List Char → List Char → Bool
  | [], _ => true
  | _ :: _, [] => false
  | a :: as, b :: bs =>
    if a.toNat < b.toNat then true
    else if b.toNat < a.toNat then false
    else charsLe as bs

/-- String comparison for the id sort. -/
def strLe (a b : String) : Bool := charsLe a.data b.data

/-- Insertion into a `strLe`-sorted list of strings. -/
def insertStr (a : String) : List String → List String
  | [] => [a]
  | b :: bs => if strLe a b then a :: b :: bs else b :: insertStr a bs

/-- `[...].sort()` on an array of card-id strings (any stable comparison
sort; only the resulting order matters and the engine compares the sorted
lists for equality). -/
def sortIds : List String → List String
  | [] => []
  | a :: as => insertStr a (sortIds as)

/-- `getNextValidPlayerIndex`'s scanning loop: up to `fuel = numPlayers`
probes, starting at `index`, returning the first seat with a non-empty
hand. -/
def nextValidAux (ps : List Player) (index : Nat) : Nat → Option Nat
  | 0 => none
  | fuel + 1 =>
    if ((ps.getD index default).hand.length != 0) then some index
    else nextValidAux ps ((index + 1) % ps.length) fuel

/-- `getNextValidPlayerIndex` (identical in both iterations): first seat at
or after `startIndex` (cyclically) holding cards; if nobody holds cards the
original `startIndex` is returned. -/
def getNextValidPlayerIndex (g : Game) (startIndex : Nat) : Nat :=
  (nextValidAux g.players (startIndex % g.players.length) g.players.length).getD startIndex

/-! ## Title assignment (identical in both iterations) -/

/-- `p.hand.length === 0 && p.title == null`. -/
def emptyUntitled (p : Player) : Bool :=
  p.hand.length == 0 && p.title == none

/-- The `titleIndex` ladder: King, then Wise, then Civilian. -/
def titleFor (k : Nat) : String :=
  if k == 0 then "King" else if k == 1 then "Wise" else "Civilian"

/-- The `for (const player of finishedPlayers)` loop.  `finishedPlayers` is
the empty-handed untitled players filtered from `game.players` and stably
sorted by seat index — `List.filter` already yields them in seat order, so
the sort is the identity and the loop is a single structural pass handing
the `k`-th such player the title `titleFor (k₀ + k)`. -/
def titlesPass : Nat → List Player → List Player
  | _, [] => []
  | k, p :: ps =>
    if emptyUntitled p then { p with title := some (titleFor k) } :: titlesPass (k + 1) ps
    else p :: titlesPass k ps

/-- `titleIndex`'s starting value: players already titled with something
other than Beggar. -/
def titledCount (g : Game) : Nat :=
  (g.players.filter (fun p => !(p.title == none) && !(p.title == some "Beggar"))).length

/-- `remainingPlayers.length`: seats still holding cards. -/
def remainingCount (g : Game) : Nat :=
  (g.players.filter (fun p => p.hand.length != 0)).length

/-- The players list produced by `assignTitles`: the ranking pass over the
newly emptied seats, then — when exactly one of more than two seats still
holds cards — Beggar for that seat. -/
def assignTitlesPlayers (g : Game) : List Player :=
  if remainingCount g == 1 && 2 < g.players.length then
    (titlesPass (titledCount g) g.players).map
      (fun p => if p.hand.length != 0 then { p with title := some "Beggar" } else p)
  else titlesPass (titledCount g) g.players

/-- `assignTitles` (identical in both iterations): rank the newly emptied
players, hand the lone remaining card-holder Beggar when more than two are
seated, and finish the game once every seat is titled. -/
def assignTitles (g : Game) : Game :=
  if (assignTitlesPlayers g).all (fun p => !(p.title == none)) then
    { g with players := assignTitlesPlayers g, status := "finished" }
  else { g with players := assignTitlesPlayers g }

/-! ## Dealing (identical in both iterations) -/

/-- `game.players[i].hand = h` for a seat index. -/
def setHand : List Player → Nat → List Card → List Player
  | [], _, _ => []
  | p :: ps, 0, h => { p with hand := h } :: ps
  | p :: ps, i + 1, h => p :: setHand ps i h

/-- `game.players[i].hand.push(c)`. -/
def pushCard : List Player → Nat → Card → List Player
  | [], _, _ => []
  | p :: ps, 0, c => { p with hand := p.hand ++ [c] } :: ps
  | p :: ps, i + 1, c => p :: pushCard ps i c

/-- The first dealing loop: for `i` in `0..m`, seat `perm[i]` gets the
`i`-th block of `base` cards of the deck (`m` abstracts the loop bound for
the proofs; `deal` runs it with `m = players.length`). -/
def dealLoop1 (players : List Player) (deck : List Card) (perm : List Nat)
    (base m : Nat) : List Player :=
  (List.range m).foldl
    (fun ps i => setHand ps (perm.getD i 0) ((deck.drop (i * base)).take base)) players

/-- The second dealing loop: for `i` in `0..m`, seat `perm[i]` additionally
receives the single card at deck position `nbase + i` (the code runs it with
`nbase = players.length * base` and `m = extraCards`). -/
def dealLoop2 (start : List Player) (deck : List Card) (perm : List Nat)
    (nbase m : Nat) : List Player :=
  (List.range m).foldl
    (fun ps i => pushCard ps (perm.getD i 0) (deck.getD (nbase + i) default)) start

/-- The two dealing loops of `deal`: seat `perm[i]` receives the `i`-th
block of `base` cards, then the first `extra` seats of the shuffled order
each receive one remainder card. -/
def dealHands (players : List Player) (deck : List Card) (perm : List Nat)
    (base extra : Nat) : List Player :=
  dealLoop2 (dealLoop1 players deck perm base players.length) deck perm
    (players.length * base) extra

/-- `deal`: split the deck as evenly as possible over the seats, handing the
remainder to a random subset (`perm` is the Fisher-Yates-shuffled list of
seat indices, passed in as the outcome of the `Math.random()` draws), then
clear the deck. -/
def deal (g : Game) (perm : List Nat) : Game :=
  let base := g.deck.length / g.players.length
  let extra := g.deck.length % g.players.length
  { g with players := dealHands g.players g.deck perm base extra, deck := [] }

/-! ## Pattern bookkeeping -/

/-- `updatePattern` of the main iteration (part_000 lines 945-971): runs on
every accepted play and overwrites the round family. -/
def updatePattern (cards : List Card) (g : Game) : Game :=
  if cards.any (·.isDetails) then { g with currentPattern := some "single" }
  else
    let e := cards.map effectiveCard
    if e.length == 1 then { g with currentPattern := some "single" }
    else if e.length == 2 then
      if allRanksEqualHead e then { g with currentPattern := some "pair" }
      else { g with currentPattern := some "consecutive" }
    else if 3 ≤ e.length && e.length ≤ 4 && allRanksEqualHead e then
      { g with currentPattern := some ("group-" ++ toString e.length) }
    else if 2 ≤ e.length then { g with currentPattern := some "consecutive" }
    else g

namespace GS

/-- The quirky rank comparison of `gameService.ts`'s `updatePattern` and the
main iteration's `getPatternType`: the right-hand side of the comparison
branches on `cards[0].isJoker` but still reads the *current* element's
fields (`(cards[0].isJoker ? c.assignedRank : c.rank)`). -/
def quirkyRanksEqual (cards : List Card) : Bool :=
  match cards with
  | [] => true
  | c0 :: _ =>
    cards.all (fun c =>
      (if c.isJoker then c.assignedRank else c.rank) ==
        (if c0.isJoker then c.assignedRank else c.rank))

/-- `updatePattern` of `gameService.ts` (lines 493-517): only fires while
the round family is unset, and prefers a run over a pair. -/
def updatePattern (cards : List Card) (g : Game) : Game :=
  if g.currentPattern == none then
    if cards.length == 1 then { g with currentPattern := some "single" }
    else if 2 ≤ cards.length then
      let e := cards.map effectiveCard
      let sorted := sortByValue e
      if chainByOne sorted && allSameSuit sorted then
        { g with currentPattern := some "consecutive" }
      else if cards.length == 2 && quirkyRanksEqual cards then
        { g with currentPattern := some "pair" }
      else if 3 ≤ cards.length && cards.length ≤ 4 && quirkyRanksEqual cards then
        { g with currentPattern := some ("group-" ++ toString cards.length) }
      else g
    else g
  else g

end GS

/-! ## Commands (join / start / play / pass / restart / leave)

Rejections (`return null`) always occur before any mutation in the source,
so they are embedded as `none`-returning branches; a JavaScript crash on an
out-of-range `players[currentTurn]` or a failed `find(...)!` likewise occurs
before any mutation and is embedded as `none`. -/

/-- `pass` (state-identical in both iterations; the main one additionally
clears timers, which carry no aggregate state).  Named `passCmd` because
Mathlib exports a `pass` of its own. -/
def passCmd (g : Game) (playerId : String) : Option Game :=
  if !g.isTestMode && ((g.players.get? g.currentTurn).map (·.id) != some playerId) then none
  else if g.isTestMode then some g
  else
    match findPlayer g.players playerId with
    | none => none
    | some player =>
      if g.pile.length == 0 && g.passCount == 0 && player.hand.length != 0 then none
      else
        let g1 :=
          if !(g.passedPlayerIds.contains playerId) then
            { g with passedPlayerIds := g.passedPlayerIds ++ [playerId],
                     passCount := g.passCount + 1 }
          else g
        let activePlayers := g1.players.filter (fun p => p.hand.length != 0)
        let lastPlayedPlayer : Option Player :=
          match g1.lastPlayedPlayerId with
          | some lid => g1.players.find? (fun p => p.id == lid)
          | none => none
        let remainingActive := (activePlayers.map (·.id)).filter
          (fun i => !(some i == g1.lastPlayedPlayerId) && !(g1.passedPlayerIds.contains i))
        if remainingActive.length == 0 && activePlayers.length > 1 then
          let g2 := { g1 with pile := [], passCount := 0, passedPlayerIds := [],
                              currentPattern := none }
          let idx0 : Option Nat :=
            match g1.lastPlayedPlayerId with
            | some lid => g1.players.findIdx? (fun p => p.id == lid)
            | none => some g1.currentTurn
          let lastEmpty : Bool :=
            match lastPlayedPlayer with
            | some lp => lp.hand.length == 0
            | none => false
          let nextPlayerIndex : Nat :=
            match idx0 with
            | none => (g1.currentTurn + 1) % g1.players.length
            | some k => if lastEmpty then (g1.currentTurn + 1) % g1.players.length else k
          some { g2 with currentTurn := getNextValidPlayerIndex g2 nextPlayerIndex }
        else
          some { g1 with currentTurn :=
            getNextValidPlayerIndex g1 ((g1.currentTurn + 1) % g1.players.length) }

/-- `playPattern` of the main iteration (part_000 lines 731-809); the test
branch validates the pattern only, the normal branch additionally checks
card ownership and the submitted remaining hand. -/
def playPattern (g : Game) (playerId : String) (cards hand : List Card) : Option Game :=
  if !g.isTestMode && ((g.players.get? g.currentTurn).map (·.id) != some playerId) then none
  else
    match findPlayer g.players playerId with
    | none => none
    | some player =>
      if g.isTestMode then
        if validatePattern cards none none then
          let g1 := { g with players := modifyFirstHand g.players playerId hand,
                             pile := g.pile ++ [cards], passCount := 0,
                             passedPlayerIds := [], lastPlayedPlayerId := some playerId }
          let g2 := updatePattern cards g1
          some (if hand.length == 0 then assignTitles g2 else g2)
        else none
      else
        let handCardIds := player.hand.map cardId
        let playedCardIds := cards.map cardId
        if !(playedCardIds.all (fun i => handCardIds.contains i)) then none
        else
          let remainingHand :=
            player.hand.filter (fun c => !(playedCardIds.contains (cardId c)))
          let submittedHandIds := sortIds (hand.map cardId)
          let expectedHandIds := sortIds (remainingHand.map cardId)
          if submittedHandIds.length != expectedHandIds.length ||
              submittedHandIds != expectedHandIds then none
          else
            let prevPattern := g.pile.getLast?
            if validatePattern cards prevPattern g.currentPattern then
              let g1 := { g with players := modifyFirstHand g.players playerId hand,
                                 pile := g.pile ++ [cards], passCount := 0,
                                 passedPlayerIds := [], lastPlayedPlayerId := some playerId }
              let g2 := updatePattern cards g1
              let g3 := if hand.length == 0 then assignTitles g2 else g2
              if g3.status != "finished" then
                some { g3 with currentTurn :=
                  getNextValidPlayerIndex g3 ((g3.currentTurn + 1) % g3.players.length) }
              else some g3
            else none

/-- `restartGame` of the main iteration (part_000 lines 541-591): only from
a finished game, only with a resolved Wise holder, who starts the new
hand.  `shuffled` is the freshly created deck after the `shuffle` call. -/
def restartGame (g : Game) (playerId : String) (shuffled : List Card)
    (perm : List Nat) : Option Game :=
  if g.status != "finished" then none
  else if (findPlayer g.players playerId).isNone then none
  else
    match g.players.findIdx? (fun p => p.title == some "Wise") with
    | none => none
    | some wiseIdx =>
      let g1 := { g with status := "playing", pile := [], passCount := 0,
                         passedPlayerIds := [], currentPattern := none,
                         lastPlayedPlayerId := none, deck := shuffled }
      let g2 := deal g1 perm
      some { g2 with currentTurn := wiseIdx,
                     players := g2.players.map (fun p => { p with title := none }) }

/-- `joinGame` (identical in both iterations): append a seat while waiting
and under capacity, rejecting duplicate names. -/
def joinGame (g : Game) (playerName : String) : Option Game :=
  if g.status != "waiting" then none
  else if 6 ≤ g.players.length then none
  else if g.players.any (fun p => p.name == playerName) then none
  else some { g with players := g.players ++
    [{ id := g.id ++ "-" ++ playerName, name := playerName, hand := [], title := none }] }

/-- `createGame` before its test-mode `startGame` call (identical in both
iterations): one seated creator, a fresh deck, `playing` status in test
mode. -/
def createGame (gameId playerName : String) (isTestMode : Bool) : Game :=
  { id := gameId,
    players := [{ id := gameId ++ "-" ++ playerName, name := playerName,
                  hand := [], title := none }],
    deck := createDeck, pile := [], currentTurn := 0,
    status := if isTestMode then "playing" else "waiting",
    passCount := 0, currentPattern := none, lastPlayedPlayerId := none,
    isTestMode := isTestMode, passedPlayerIds := [] }

/-- `leaveGame` (identical in both iterations): while not finished the game
ends for everybody (and is deleted from the registry); from a finished game
only the leaver's seat is spliced out. -/
def leaveGame (g : Game) (playerId : String) : Option Game :=
  match g.players.findIdx? (fun p => p.id == playerId) with
  | none => none
  | some i =>
    if g.status != "finished" then some { g with status := "finished" }
    else some { g with players := g.players.eraseIdx i }

/-- `leaveGameFromSummary` (identical in both iterations): splice the seat
out regardless of the game's status. -/
def leaveGameFromSummary (g : Game) (playerId : String) : Option Game :=
  match g.players.findIdx? (fun p => p.id == playerId) with
  | none => none
  | some i => some { g with players := g.players.eraseIdx i }

/-- `updateHandOrder` (identical in both iterations): replace a hand by a
reordering with the same multiset of card ids. -/
def updateHandOrder (g : Game) (playerId : String) (hand : List Card) : Option Game :=
  match findPlayer g.players playerId with
  | none => none
  | some player =>
    let currentHandIds := sortIds (player.hand.map cardId)
    let newHandIds := sortIds (hand.map cardId)
    if currentHandIds.length != newHandIds.length || currentHandIds != newHandIds then none
    else some { g with players := modifyFirstHand g.players playerId hand }

/-- The restarted game's first turn: the Wise seat if one was found
(`wisePlayerIndex >= 0`), otherwise the first card-holding seat. -/
def restartTurn (w : Option Nat) (g2 : Game) : Nat :=
  match w with
  | some k => k
  | none => getNextValidPlayerIndex g2 0

namespace GS

/-- `playPattern` of `gameService.ts` (lines 336-407): same flow as the main
iteration but with this iteration's validator and family bookkeeping. -/
def playPattern (g : Game) (playerId : String) (cards hand : List Card) : Option Game :=
  if !g.isTestMode && ((g.players.get? g.currentTurn).map (·.id) != some playerId) then none
  else
    match findPlayer g.players playerId with
    | none => none
    | some player =>
      if g.isTestMode then
        if GS.validatePattern cards none none then
          let g1 := { g with players := modifyFirstHand g.players playerId hand,
                             pile := g.pile ++ [cards], passCount := 0,
                             passedPlayerIds := [], lastPlayedPlayerId := some playerId }
          let g2 := GS.updatePattern cards g1
          some (if hand.length == 0 then assignTitles g2 else g2)
        else none
      else
        let handCardIds := player.hand.map cardId
        let playedCardIds := cards.map cardId
        if !(playedCardIds.all (fun i => handCardIds.contains i)) then none
        else
          let remainingHand :=
            player.hand.filter (fun c => !(playedCardIds.contains (cardId c)))
          let submittedHandIds := sortIds (hand.map cardId)
          let expectedHandIds := sortIds (remainingHand.map cardId)
          if submittedHandIds.length != expectedHandIds.length ||
              submittedHandIds != expectedHandIds then none
          else
            let prevPattern := g.pile.getLast?
            if GS.validatePattern cards prevPattern g.currentPattern then
              let g1 := { g with players := modifyFirstHand g.players playerId hand,
                                 pile := g.pile ++ [cards], passCount := 0,
                                 passedPlayerIds := [], lastPlayedPlayerId := some playerId }
              let g2 := GS.updatePattern cards g1
              let g3 := if hand.length == 0 then assignTitles g2 else g2
              if g3.status != "finished" then
                some { g3 with currentTurn :=
                  getNextValidPlayerIndex g3 ((g3.currentTurn + 1) % g3.players.length) }
              else some g3
            else none

/-- `startGame` of `gameService.ts` (lines 126-142): status and player-count
guards (both skipped in test mode), then shuffle, deal and pick the first
card-holder.  `shuffled` is the outcome of `shuffle(game.deck)`. -/
def startGame (g : Game) (shuffled : List Card) (perm : List Nat) : Option Game :=
  if g.status != "waiting" && !g.isTestMode then none
  else if !g.isTestMode && (g.players.length < 3 || 6 < g.players.length) then none
  else
    let g1 := { g with status := "playing", deck := shuffled }
    let g2 := deal g1 perm
    some { g2 with currentTurn := getNextValidPlayerIndex g2 0 }

/-- `startGameManually` of `gameService.ts` (lines 144-160). -/
def startGameManually (g : Game) (playerId : String) (shuffled : List Card)
    (perm : List Nat) : Option Game :=
  if g.status != "waiting" then none
  else if g.players.length < 3 || 6 < g.players.length then none
  else if !(g.players.any (fun p => p.id == playerId)) then none
  else GS.startGame g shuffled perm

/-- `restartGame` of `gameService.ts` (lines 162-198): no status and no
Wise-holder precondition; hands and titles are cleared, a fresh deck is
dealt, and the Wise holder — if any — starts, otherwise the first
card-holder. -/
def restartGame (g : Game) (playerId : String) (shuffled : List Card)
    (perm : List Nat) : Option Game :=
  if !(g.players.any (fun p => p.id == playerId)) then none
  else
    let wiseIdx := g.players.findIdx? (fun p => p.title == some "Wise")
    let players1 := g.players.map (fun p => { p with title := none, hand := ([] : List Card) })
    let g1 := { g with players := players1, deck := shuffled, pile := [],
                       status := "playing", passCount := 0, currentPattern := none,
                       lastPlayedPlayerId := none, passedPlayerIds := [] }
    let g2 := deal g1 perm
    some { g2 with currentTurn := restartTurn wiseIdx g2 }

end GS

/-- The body of the `setTimeout` callback armed by the main iteration's
`startTurnTimer` (part_000 lines 891-913): `armedPlayerId` is the current
player's id captured when the timer was armed; on expiry the callback
discards itself unless that player is still the player at the (current)
`currentTurn` index, and otherwise performs an automatic `pass`. -/
def turnTimerFire (g : Game) (armedPlayerId : String) : Option Game :=
  match g.players.get? g.currentTurn with
  | none => none
  | some current =>
    if current.id != armedPlayerId then none
    else passCmd g armedPlayerId

/-! ## The bot's decision heuristic (main iteration only) -/

/-- `getPatternType` (part_000 lines 505-520): classify a candidate play,
returning `""` when nothing matches.  The rank comparisons carry the same
`cards[0].isJoker ? c.assignedRank : c.rank` quirk as `GS.updatePattern`,
and the run check uses the raw (not effective) suits. -/
def getPatternType (cards : List Card) : String :=
  if cards.length == 1 then "single"
  else if cards.length == 2 && GS.quirkyRanksEqual cards then "pair"
  else if 3 ≤ cards.length && cards.length ≤ 4 && GS.quirkyRanksEqual cards then
    "group-" ++ toString cards.length
  else
    let sorted := sortByValue cards
    if chainByOne sorted && allSameSuit sorted then "consecutive" else ""

/-- `game.pile.length === 0 && game.passCount === 0`: the bot is obliged to
open a fresh round. -/
def roundStarter (g : Game) : Bool :=
  g.pile.length == 0 && g.passCount == 0

/-- `prevPattern ? getPatternValue(prevPattern, game.currentPattern) : 0`:
the strength of the top of the pile. -/
def pileTopValue (g : Game) : Nat :=
  match g.pile.getLast? with
  | some pp => getPatternValue pp g.currentPattern
  | none => 0

/-- `getPatternValue(pattern, game.currentPattern || getPatternType(pattern))`. -/
def candValue (g : Game) (pattern : List Card) : Nat :=
  getPatternValue pattern
    (if strTruthy g.currentPattern then g.currentPattern else some (getPatternType pattern))

/-- The score the bot assigns a candidate: base strength times the
aggressiveness multiplier, minus 10 with a small hand, plus a length
penalty beyond two cards, then the round-start adjustments (heavy penalty
for singles, bonus for low multi-card patterns) or, off round start, a
penalty for high singles. -/
def smartScore (isRoundStarter : Bool) (aggressiveFactor : ℚ)
    (handSize patternValue len : Nat) : ℚ :=
  let score0 : ℚ := (patternValue : ℚ) * aggressiveFactor
  let score1 := if handSize ≤ 3 then score0 - 10 else score0
  let score2 := if 2 < len then score1 + (len : ℚ) * 2 else score1
  if isRoundStarter then
    if len == 1 then (score2 + 50) + (if 12 ≤ patternValue then (20 : ℚ) else 0)
    else (score2 - 10) - (if patternValue < 12 then (5 : ℚ) else 0)
  else if len == 1 && 12 ≤ patternValue then score2 + 10
  else score2

/-- `score < bestScore`, with `none` standing for the initial `Infinity`. -/
def smartBetter (best2 : Option ℚ) (sc : ℚ) : Bool :=
  match best2 with
  | none => true
  | some b => decide (sc < b)

/-- One iteration of `chooseSmartPattern`'s candidate-scoring loop,
accumulating the best (lowest-scoring) pattern and its score; off round
start a candidate that does not beat the pile is skipped. -/
def smartStep (isRoundStarter : Bool) (prevValue : Nat) (aggressiveFactor : ℚ)
    (handSize : Nat) (g : Game)
    (best : Option (List Card) × Option ℚ) (pattern : List Card) :
    Option (List Card) × Option ℚ :=
  if !isRoundStarter && candValue g pattern ≤ prevValue then best
  else if smartBetter best.2
      (smartScore isRoundStarter aggressiveFactor handSize (candValue g pattern)
        pattern.length) then
    (some pattern,
     some (smartScore isRoundStarter aggressiveFactor handSize (candValue g pattern)
        pattern.length))
  else best

/-- `activePlayers`: opponents of the bot still holding cards. -/
def botOpponents (g : Game) (bot : Player) : Nat :=
  (g.players.filter (fun p => p.hand.length != 0 && p.id != bot.id)).length

/-- `chooseSmartPattern` (part_000 lines 432-502).  `randPass` is the
outcome of the `Math.random() < 0.2` draw.  The returned empty list is the
bot's strategic pass. -/
def chooseSmartPattern (patterns : List (List Card)) (g : Game) (bot : Player)
    (randPass : Bool) : List Card :=
  if patterns.length == 0 then []
  else if (!(roundStarter g) && randPass && decide (pileTopValue g < 12) &&
      decide (5 < bot.hand.length)) && !(roundStarter g) then []
  else
    match (patterns.foldl
        (smartStep (roundStarter g) (pileTopValue g)
          (if bot.hand.length ≤ 3 || botOpponents g bot == 1 then 3/2 else 1)
          bot.hand.length g)
        (none, none)).1 with
    | some p => p
    | none => []

/-! ## Concrete fixtures used by counterexamples and witnesses -/

/-- A finished three-player game in which the turn timer armed for player B
survived B's game-finishing play: B is still the player at `currentTurn`. -/
def gTimerCx : Game :=
  { id := "g",
    players :=
      [{ id := "g-A", name := "A", hand := [], title := some "King" },
       { id := "g-B", name := "B", hand := [], title := some "Wise" },
       { id := "g-C", name := "C", hand := [plainCard "spades" "3"], title := some "Beggar" }],
    deck := [], pile := [[plainCard "hearts" "3"]], currentTurn := 1,
    status := "finished", passCount := 0, currentPattern := some "single",
    lastPlayedPlayerId := some "g-B", isTestMode := false, passedPlayerIds := [] }

/-- The state after the stale timer for B fires on `gTimerCx`. -/
def gTimerCx' : Game := (turnTimerFire gTimerCx "g-B").getD gTimerCx

/-- The bot of the C10 fixtures. -/
def botCx : Player :=
  { id := "g-bot1", name := "Bot", hand := [plainCard "hearts" "3"], title := none,
    isBot := true }

/-- A game whose pile top is the details play: the lone details candidate is
legal against it but cannot exceed its strength. -/
def gBotCx : Game :=
  { id := "g", players := [botCx], deck := [], pile := [[detailsCard]],
    currentTurn := 0, status := "playing", passCount := 0,
    currentPattern := some "single", lastPlayedPlayerId := some "g-bot1",
    isTestMode := false, passedPlayerIds := [], isSinglePlayer := true }

/-- A fresh-round game for the C10 witness: the bot must open the round. -/
def gBotW : Game :=
  { id := "g", players := [botCx], deck := [], pile := [], currentTurn := 0,
    status := "playing", passCount := 0, currentPattern := none,
    lastPlayedPlayerId := none, isTestMode := false, passedPlayerIds := [],
    isSinglePlayer := true }

/-- A two-player, five-card game for the C5 witness. -/
def gDealW : Game :=
  { id := "g",
    players :=
      [{ id := "g-A", name := "A", hand := [], title := none },
       { id := "g-B", name := "B", hand := [], title := none }],
    deck := [plainCard "hearts" "3", plainCard "hearts" "4", plainCard "hearts" "5",
             plainCard "hearts" "6", plainCard "hearts" "7"],
    pile := [], currentTurn := 0, status := "waiting", passCount := 0,
    currentPattern := none, lastPlayedPlayerId := none, isTestMode := false,
    passedPlayerIds := [] }

/-- The effect of the ranking pass on the seat at index `i` (proof helper:
this is what `titlesPass` does to that element). -/
def titledAdjust (g : Game) (i : Nat) (p : Player) : Player :=
  if emptyUntitled p then
    { p with title := some (titleFor (titledCount g + ((g.players.take i).filter emptyUntitled).length)) }
  else p

/-- A playing three-player game in which A and B have just emptied their
hands and C alone still holds a card (C7 witness fixture). -/
def gTitleW : Game :=
  { id := "g",
    players :=
      [{ id := "g-A", name := "A", hand := [], title := none },
       { id := "g-B", name := "B", hand := [], title := none },
       { id := "g-C", name := "C", hand := [plainCard "spades" "3"], title := none }],
    deck := [], pile := [[plainCard "hearts" "3"]], currentTurn := 1,
    status := "playing", passCount := 0, currentPattern := some "single",
    lastPlayedPlayerId := some "g-B", isTestMode := false, passedPlayerIds := [] }

/-- A test-mode game with one seated player holding a single three of
hearts (C1 fixture). -/
def gC1 : Game :=
  { id := "g",
    players := [{ id := "g-P", name := "P", hand := [plainCard "hearts" "3"], title := none }],
    deck := [], pile := [], currentTurn := 0, status := "playing",
    passCount := 0, currentPattern := none, lastPlayedPlayerId := none,
    isTestMode := true, passedPlayerIds := [] }

/-- The same game with test mode switched off (C1 fixture). -/
def gC1n : Game := { gC1 with isTestMode := false }

/-- A finished three-player game whose Wise title sits at seat 1 (C8
witness fixture). -/
def gRstW : Game :=
  { id := "g",
    players :=
      [{ id := "g-A", name := "A", hand := [], title := some "King" },
       { id := "g-B", name := "B", hand := [], title := some "Wise" },
       { id := "g-C", name := "C", hand := [plainCard "clubs" "2"], title := some "Beggar" }],
    deck := [], pile := [], currentTurn := 0, status := "finished",
    passCount := 0, currentPattern := none, lastPlayedPlayerId := none,
    isTestMode := false, passedPlayerIds := [] }

/-! ## The command step relation of the `gameService.ts` iteration (C6) -/

/-- One accepted command of the `gameService.ts` iteration, as wired to the
socket handlers.  Random draws (deck shuffles, seat permutations) appear as
explicitly constrained witnesses; a command that returns `null` produces no
step. -/
inductive Step : Game → Game → Prop
  | join (g : Game) (name : String) (g2 : Game) :
      joinGame g name = some g2 → Step g g2
  | startManually (g : Game) (pid : String) (shuffled : List Card)
      (perm : List Nat) (g2 : Game) :
      shuffled.Perm g.deck → perm.Perm (List.range g.players.length) →
      GS.startGameManually g pid shuffled perm = some g2 → Step g g2
  | play (g : Game) (pid : String) (cards hand : List Card) (g2 : Game) :
      GS.playPattern g pid cards hand = some g2 → Step g g2
  | passTurn (g : Game) (pid : String) (g2 : Game) :
      passCmd g pid = some g2 → Step g g2
  | restart (g : Game) (pid : String) (shuffled : List Card)
      (perm : List Nat) (g2 : Game) :
      shuffled.Perm createDeck → perm.Perm (List.range g.players.length) →
      GS.restartGame g pid shuffled perm = some g2 → Step g g2
  | leave (g : Game) (pid : String) (g2 : Game) :
      leaveGame g pid = some g2 → Step g g2
  | leaveSummary (g : Game) (pid : String) (g2 : Game) :
      leaveGameFromSummary g pid = some g2 → Step g g2
  | handOrder (g : Game) (pid : String) (hand : List Card) (g2 : Game) :
      updateHandOrder g pid hand = some g2 → Step g g2

/-- `Step` with the summary-screen leave restricted to finished games (the
only situation the client issues it in, and the restriction under which the
claimed invariant is provable). -/
inductive StepOK : Game → Game → Prop
  | join (g : Game) (name : String) (g2 : Game) :
      joinGame g name = some g2 → StepOK g g2
  | startManually (g : Game) (pid : String) (shuffled : List Card)
      (perm : List Nat) (g2 : Game) :
      shuffled.Perm g.deck → perm.Perm (List.range g.players.length) →
      GS.startGameManually g pid shuffled perm = some g2 → StepOK g g2
  | play (g : Game) (pid : String) (cards hand : List Card) (g2 : Game) :
      GS.playPattern g pid cards hand = some g2 → StepOK g g2
  | passTurn (g : Game) (pid : String) (g2 : Game) :
      passCmd g pid = some g2 → StepOK g g2
  | restart (g : Game) (pid : String) (shuffled : List Card)
      (perm : List Nat) (g2 : Game) :
      shuffled.Perm createDeck → perm.Perm (List.range g.players.length) →
      GS.restartGame g pid shuffled perm = some g2 → StepOK g g2
  | leave (g : Game) (pid : String) (g2 : Game) :
      leaveGame g pid = some g2 → StepOK g g2
  | leaveSummary (g : Game) (pid : String) (g2 : Game) :
      g.status = "finished" → leaveGameFromSummary g pid = some g2 → StepOK g g2
  | handOrder (g : Game) (pid : String) (hand : List Card) (g2 : Game) :
      updateHandOrder g pid hand = some g2 → StepOK g g2

/-- Freshly created games: a non-test `createGame`, or a test-mode
`createGame` immediately followed by its automatic `startGame`. -/
def Initial (g : Game) : Prop :=
  (∃ gid name : String, g = createGame gid name false) ∨
  (∃ (gid name : String) (shuffled : List Card) (g2 : Game),
    shuffled.Perm createDeck ∧
    GS.startGame (createGame gid name true) shuffled [0] = some g2 ∧ g = g2)

/-- Games produced from `g0` by some sequence of accepted commands. -/
def Reachable : Game → Game → Prop := Relation.ReflTransGen Step

/-- Games produced from `g0` by accepted commands with the summary-screen
leave issued only on finished games. -/
def ReachableOK : Game → Game → Prop := Relation.ReflTransGen StepOK

/-- The turn-validity invariant of C6, strengthened to an inductive one:
while playing the current seat exists and holds cards, a waiting game still
has its deck, at most six seats are ever filled, and a test game is a
started solo game. -/
def TurnInv (g : Game) : Prop :=
  (g.status = "playing" → ∃ p, g.players.get? g.currentTurn = some p ∧ p.hand ≠ []) ∧
  (g.status = "waiting" → g.deck ≠ []) ∧
  g.players.length ≤ 6 ∧
  (g.isTestMode = true → g.status ≠ "waiting" ∧ g.players.length ≤ 1)

/-- C6 counterexample chain: a three-player game is created and started. -/
def cg0 : Game := createGame "g" "A" false

def cg1 : Game := (joinGame cg0 "B").getD cg0

def cg2 : Game := (joinGame cg1 "C").getD cg1

def cg3 : Game := (GS.startGameManually cg2 "g-A" createDeck [0, 1, 2]).getD cg2

/-- The opening play of the counterexample chain. -/
def cardsA : List Card := [plainCard "hearts" "3"]

def handA : List Card :=
  ((findPlayer cg3.players "g-A").getD default).hand.filter
    (fun c => !(cardId c == cardId (plainCard "hearts" "3")))

def cg4 : Game := (GS.playPattern cg3 "g-A" cardsA handA).getD cg3

/-- The second play of the counterexample chain. -/
def cardsB : List Card := [plainCard "diamonds" "8"]

def handB : List Card :=
  ((findPlayer cg4.players "g-B").getD default).hand.filter
    (fun c => !(cardId c == cardId (plainCard "diamonds" "8")))

def cg5 : Game := (GS.playPattern cg4 "g-B" cardsB handB).getD cg4

/-- Seat 0 leaves the playing game through the summary-screen leave: the
remaining game still claims seat 2 as current turn. -/
def cg6 : Game := (leaveGameFromSummary cg5 "g-A").getD cg5

/-! # Claim theorems -/

/-! ## C4 — deck composition -/

/-- C4 counterexample: the claim announces a 54-card deck, but
4 suits × 13 ranks + 2 jokers + 1 details card are 55 cards, and that is
what `createDeck` returns. -/
theorem c4_counterexample : createDeck.length ≠ 54 ∧ createDeck.length = 55 := by
  decide

/-- C4 (amended): `createDeck` returns 55 pairwise distinct cards — each of
the 4 suits paired with each of the 13 ranks exactly once, two distinct
jokers, one details card, and nothing else. -/
theorem c4_amended :
    createDeck.length = 55 ∧ createDeck.Nodup ∧
    (suitsList.all fun s => ranksList.all fun r =>
      createDeck.count (plainCard s r) == 1) = true ∧
    createDeck.count jokerCard1 = 1 ∧ createDeck.count jokerCard2 = 1 ∧
    jokerCard1 ≠ jokerCard2 ∧ createDeck.count detailsCard = 1 ∧
    (createDeck.all fun c =>
      c == jokerCard1 || c == jokerCard2 || c == detailsCard ||
        (suitsList.any fun s => ranksList.any fun r => c == plainCard s r)) = true := by
  refine ⟨by decide, by decide, by decide, by decide, by decide, by decide, by decide, by decide⟩

/-! ## C3 — plays over a details play -/

/-- C3 counterexample: a lone details candidate is accepted by both
iterations' `validatePattern` even though the previous play contains the
details card (the details branch returns before the previous play is
inspected), so the claim's "no card at all — including the details card
itself — may be played atop a details play" fails as stated. -/
theorem c3_counterexample :
    validatePattern [detailsCard] (some [detailsCard]) (some "single") = true ∧
    GS.validatePattern [detailsCard] (some [detailsCard]) (some "single") = true := by
  refine ⟨by decide, by decide⟩

/-- C3 (amended): whenever the previous play contains the details card,
both iterations' `validatePattern` reject every candidate that is not the
lone details card: any candidate free of the details card is rejected
because of the previous play, and any candidate containing the details card
alongside at least one other card is rejected outright. -/
theorem c3_amended (cards prev : List Card) (cp : Option String)
    (hprev : prev.any (·.isDetails) = true)
    (hcards : cards.all (fun c => !c.isDetails) = true ∨ 2 ≤ cards.length) :
    validatePattern cards (some prev) cp = false ∧
    GS.validatePattern cards (some prev) cp = false := by
  have h2of : (cards.any (·.isDetails)) = true → 2 ≤ cards.length := by
    intro hany
    rcases hcards with hnod | h2
    · exfalso
      simp only [List.any_eq_true] at hany
      obtain ⟨c, hc, hcd⟩ := hany
      simp only [List.all_eq_true] at hnod
      have := hnod c hc
      simp [hcd] at this
    · exact h2
  constructor
  · unfold validatePattern
    split
    · rfl
    · split
      · next hany =>
        have h2 := h2of hany
        split
        · rfl
        · next hn1 => exact absurd (by simp only [bne_iff_ne, ne_eq]; omega) hn1
      · split
        · rfl
        · next hpd => exact absurd hprev hpd
  · unfold GS.validatePattern
    split
    · rfl
    · split
      · next hany =>
        have h2 := h2of hany
        split
        · rfl
        · next hn1 => exact absurd (by simp only [bne_iff_ne, ne_eq]; omega) hn1
      · split
        · rfl
        · next hpd => exact absurd hprev hpd

/-- C3 witness: instantiation of `c3_amended` at a plain three of hearts
played over the details card, rejected by both iterations. -/
theorem c3_witness :
    ([detailsCard].any (·.isDetails) = true) ∧
    (validatePattern [plainCard "hearts" "3"] (some [detailsCard]) none = false ∧
     GS.validatePattern [plainCard "hearts" "3"] (some [detailsCard]) none = false) :=
  ⟨by decide, c3_amended _ _ none (by decide) (Or.inl (by decide))⟩

/-! ## C2 — run length invariance -/

/-- C2 counterexample: the `gameService.ts` iteration of `validatePattern`
(which the claim also cites) has no consecutive-run length check — a
three-card run is accepted over a two-card run of the same family. -/
theorem c2_counterexample :
    GS.validatePattern
      [plainCard "hearts" "5", plainCard "hearts" "6", plainCard "hearts" "7"]
      (some [plainCard "hearts" "3", plainCard "hearts" "4"])
      (some "consecutive") = true ∧
    ([plainCard "hearts" "3", plainCard "hearts" "4"] : List Card).length ≠
      [plainCard "hearts" "5", plainCard "hearts" "6", plainCard "hearts" "7"].length := by
  decide

/-- C2 (amended): the main iteration's `validatePattern` — the one carrying
the "consecutive length fix" — rejects, once the round family is
consecutive-run, every later play whose card count differs from the
previous (non-empty) play's count, for all hands and card choices. -/
theorem c2_amended (cards prev : List Card) (hne : prev ≠ [])
    (hlen : prev.length ≠ cards.length) :
    validatePattern cards (some prev) (some "consecutive") = false := by
  have hpne : ((prev.length == 0) = false) := by
    simp only [beq_eq_false_iff_ne, ne_eq, List.length_eq_zero]
    exact hne
  have hll : ((prev.length != cards.length) = true) := by
    simp only [bne_iff_ne, ne_eq]
    exact hlen
  unfold validatePattern
  split
  · rfl
  · split
    · split
      · rfl
      · split
        · rfl
        · next hc => exact absurd (by decide) hc
    · split
      · rfl
      · split
        · rfl
        · split
          · rfl
          · next pt heq =>
            split
            · next hcond =>
              exfalso
              simp [freshRoundBypass, strTruthy, hpne] at hcond
            · split
              · rfl
              · split
                · rfl
                · next hcond3 =>
                  exfalso
                  apply hcond3
                  simp [strTruthy, hll]

/-- C2 witness: instantiation of `c2_amended` — a three-card run over a
two-card run is rejected by the main validator. -/
theorem c2_witness :
    ([plainCard "hearts" "3", plainCard "hearts" "4"] : List Card) ≠ [] ∧
    validatePattern
      [plainCard "hearts" "5", plainCard "hearts" "6", plainCard "hearts" "7"]
      (some [plainCard "hearts" "3", plainCard "hearts" "4"])
      (some "consecutive") = false :=
  ⟨by decide, c2_amended _ _ (by decide) (by decide)⟩

/-! ## C9 — stale turn-timer expiry -/

/-- C9 counterexample: the timer callback re-checks only that the armed
player is still at `currentTurn`, not that the game is still playing — a
timer that survives a game-finishing play applies its automatic pass to the
finished game and mutates it. -/
theorem c9_counterexample :
    gTimerCx.status ≠ "playing" ∧
    turnTimerFire gTimerCx "g-B" = some gTimerCx' ∧
    gTimerCx' ≠ gTimerCx := by
  refine ⟨by decide, by decide, by decide⟩

/-- C9 (amended): a firing turn timer acts only when the armed player is
still the player at the current-turn index; when the turn has advanced the
expiry is discarded and, the embedding being `Option`-valued, the game is
unchanged.  (No still-playing check is made.) -/
theorem c9_amended (g : Game) (pid : String) :
    ((turnTimerFire g pid).isSome = true →
      (g.players.get? g.currentTurn).map (·.id) = some pid) ∧
    ((g.players.get? g.currentTurn).map (·.id) ≠ some pid →
      turnTimerFire g pid = none) := by
  constructor
  · intro h
    unfold turnTimerFire at h
    split at h
    · simp at h
    · next current hc =>
      split at h
      · simp at h
      · next hid =>
        have heq : current.id = pid := by
          simp only [bne_iff_ne, ne_eq, not_not] at hid
          exact hid
        rw [hc, Option.map_some', heq]
  · intro hne
    unfold turnTimerFire
    split
    · rfl
    · next current hc =>
      split
      · rfl
      · next hid =>
        exfalso
        have heq : current.id = pid := by
          simp only [bne_iff_ne, ne_eq, not_not] at hid
          exact hid
        exact hne (by rw [hc, Option.map_some', heq])

/-- C9 witness: instantiation of `c9_amended` — a timer armed for the
already-advanced player A is discarded. -/
theorem c9_witness :
    (gTimerCx.players.get? gTimerCx.currentTurn).map (·.id) ≠ some "g-A" ∧
    turnTimerFire gTimerCx "g-A" = none :=
  ⟨by decide, (c9_amended gTimerCx "g-A").2 (by decide)⟩

/-! ## C10 — when the bot passes -/

/-- Once the scoring fold holds a candidate it never loses it. -/
theorem smartFold_isSome (st : Bool) (pv : Nat) (af : ℚ) (hs : Nat) (g : Game)
    (l : List (List Card)) (x : List Card) (s : Option ℚ) :
    ((l.foldl (smartStep st pv af hs g) (some x, s)).1).isSome = true := by
  induction l generalizing x s with
  | nil => rfl
  | cons p ps ih =>
    simp only [List.foldl_cons]
    unfold smartStep
    split
    · exact ih x s
    · split
      · exact ih p _
      · exact ih x s

/-- A candidate returned by the scoring fold came from the candidate list. -/
theorem smartFold_mem (st : Bool) (pv : Nat) (af : ℚ) (hs : Nat) (g : Game)
    (l : List (List Card)) (b : Option (List Card)) (s : Option ℚ) (p : List Card)
    (h : (l.foldl (smartStep st pv af hs g) (b, s)).1 = some p) :
    p ∈ l ∨ b = some p := by
  induction l generalizing b s with
  | nil => exact Or.inr h
  | cons q ps ih =>
    simp only [List.foldl_cons] at h
    unfold smartStep at h
    split at h
    · rcases ih b s h with h' | h'
      · exact Or.inl (List.mem_cons_of_mem q h')
      · exact Or.inr h'
    · split at h
      · rcases ih (some q) _ h with h' | h'
        · exact Or.inl (List.mem_cons_of_mem q h')
        · cases h'
          exact Or.inl (List.mem_cons_self _ _)
      · rcases ih b s h with h' | h'
        · exact Or.inl (List.mem_cons_of_mem q h')
        · exact Or.inr h'

/-- If the scoring fold ends with no candidate, every candidate was skipped:
the bot is not the round starter and no candidate beats the pile. -/
theorem smartFold_none (st : Bool) (pv : Nat) (af : ℚ) (hs : Nat) (g : Game)
    (l : List (List Card))
    (h : (l.foldl (smartStep st pv af hs g) (none, none)).1 = none) :
    ∀ p ∈ l, (!st && candValue g p ≤ pv) = true := by
  induction l with
  | nil => intro p hp; cases hp
  | cons q ps ih =>
    simp only [List.foldl_cons] at h
    by_cases hq : (!st && decide (candValue g q ≤ pv)) = true
    · have hstep : smartStep st pv af hs g (none, none) q = (none, none) := by
        unfold smartStep
        rw [if_pos hq]
      rw [hstep] at h
      intro p hp
      rcases List.mem_cons.mp hp with rfl | hp'
      · exact hq
      · exact ih h p hp'
    · have hstep : smartStep st pv af hs g (none, none) q =
          (some q, some (smartScore st af hs (candValue g q) q.length)) := by
        unfold smartStep
        rw [if_neg hq]
        rfl
      rw [hstep] at h
      have hsome := smartFold_isSome st pv af hs g ps q
        (some (smartScore st af hs (candValue g q) q.length))
      rw [h] at hsome
      exact absurd hsome (by decide)

/-- C10 counterexample: with the (legal) lone details candidate over a
details pile top, the bot passes even though the pile strength is far above
the high-card threshold and its hand is small — the fold simply found no
candidate that beats the pile, a pass the claim does not allow. -/
theorem c10_counterexample :
    chooseSmartPattern [[detailsCard]] gBotCx botCx false = [] ∧
    validatePattern [detailsCard] (some [detailsCard]) gBotCx.currentPattern = true ∧
    gBotCx.pile ≠ [] ∧
    ¬ pileTopValue gBotCx < 12 ∧
    ¬ 5 < botCx.hand.length := by
  refine ⟨by decide, by decide, by decide, by decide, by decide⟩

/-- C10 (amended): with a non-empty list of non-empty candidates, the bot
returns an empty play only when it is not the forced round starter, and
then only because either the stochastic pass fired (which additionally
requires pile strength below the high-card threshold 12 and more than five
cards in hand) or no candidate strictly beats the pile top.  In particular
a round starter with at least one candidate never passes. -/
theorem c10_amended (patterns : List (List Card)) (g : Game) (bot : Player)
    (randPass : Bool) (hne : patterns ≠ []) (hnonempty : ∀ p ∈ patterns, p ≠ [])
    (hpass : chooseSmartPattern patterns g bot randPass = []) :
    roundStarter g = false ∧
      ((randPass = true ∧ pileTopValue g < 12 ∧ 5 < bot.hand.length) ∨
        ∀ p ∈ patterns, candValue g p ≤ pileTopValue g) := by
  unfold chooseSmartPattern at hpass
  split at hpass
  · next h0 =>
    exact absurd (by simpa [List.length_eq_zero] using h0) hne
  · split at hpass
    · next hchance =>
      simp only [Bool.and_eq_true, Bool.not_eq_true', decide_eq_true_eq] at hchance
      exact ⟨hchance.2, Or.inl ⟨hchance.1.1.1.2, hchance.1.1.2, hchance.1.2⟩⟩
    · next hchance =>
      split at hpass
      · next p hp =>
        subst hpass
        rcases smartFold_mem _ _ _ _ _ _ _ _ _ hp with hmem | hmem
        · exact absurd rfl (hnonempty _ hmem)
        · cases hmem
      · next hfold =>
        have hall := smartFold_none _ _ _ _ _ _ hfold
        obtain ⟨p0, hp0⟩ : ∃ p, p ∈ patterns := by
          cases patterns with
          | nil => exact absurd rfl hne
          | cons a l => exact ⟨a, List.mem_cons_self a l⟩
        have h0 := hall p0 hp0
        simp only [Bool.and_eq_true, Bool.not_eq_true', decide_eq_true_eq] at h0
        refine ⟨h0.1, Or.inr fun p hp => ?_⟩
        have := hall p hp
        simp only [Bool.and_eq_true, Bool.not_eq_true', decide_eq_true_eq] at this
        exact this.2

/-- C10 witness: instantiation of `c10_amended` at an input on which the
bot really does pass — a lone details candidate over a details pile top —
every hypothesis discharged by evaluation: the theorem concludes the bot
was not the round starter and that no candidate beat the pile. -/
theorem c10_witness :
    chooseSmartPattern [[detailsCard]] gBotCx botCx false = [] ∧
    (roundStarter gBotCx = false ∧
      ((false = true ∧ pileTopValue gBotCx < 12 ∧ 5 < botCx.hand.length) ∨
        ∀ p ∈ [[detailsCard]], candValue gBotCx p ≤ pileTopValue gBotCx)) :=
  ⟨by decide,
    c10_amended [[detailsCard]] gBotCx botCx false (by decide) (by decide) (by decide)⟩

/-! ## Deal lemmas (towards C5) -/

theorem length_setHand (ps : List Player) (i : Nat) (h : List Card) :
    (setHand ps i h).length = ps.length := by
  induction ps generalizing i with
  | nil => rfl
  | cons p rest ih =>
    cases i with
    | zero => rfl
    | succ k => simp [setHand, ih]

theorem length_pushCard (ps : List Player) (i : Nat) (c : Card) :
    (pushCard ps i c).length = ps.length := by
  induction ps generalizing i with
  | nil => rfl
  | cons p rest ih =>
    cases i with
    | zero => rfl
    | succ k => simp [pushCard, ih]

theorem getElem?_setHand (ps : List Player) (i : Nat) (h : List Card) (j : Nat) :
    (setHand ps i h)[j]? =
      if j = i then (ps[j]?).map (fun p => { p with hand := h }) else ps[j]? := by
  induction ps generalizing i j with
  | nil => simp [setHand]
  | cons p rest ih =>
    cases i with
    | zero =>
      cases j with
      | zero => simp [setHand]
      | succ jj => simp [setHand]
    | succ k =>
      cases j with
      | zero => simp [setHand]
      | succ jj => simpa [setHand] using ih k jj

theorem getElem?_pushCard (ps : List Player) (i : Nat) (c : Card) (j : Nat) :
    (pushCard ps i c)[j]? =
      if j = i then (ps[j]?).map (fun p => { p with hand := p.hand ++ [c] })
      else ps[j]? := by
  induction ps generalizing i j with
  | nil => simp [pushCard]
  | cons p rest ih =>
    cases i with
    | zero =>
      cases j with
      | zero => simp [pushCard]
      | succ jj => simp [pushCard]
    | succ k =>
      cases j with
      | zero => simp [pushCard]
      | succ jj => simpa [pushCard] using ih k jj

theorem length_dealLoop1 (players : List Player) (deck : List Card) (perm : List Nat)
    (base m : Nat) : (dealLoop1 players deck perm base m).length = players.length := by
  unfold dealLoop1
  generalize List.range m = l
  induction l generalizing players with
  | nil => rfl
  | cons a t ih =>
    simp only [List.foldl_cons]
    rw [ih, length_setHand]

theorem length_dealLoop2 (start : List Player) (deck : List Card) (perm : List Nat)
    (nbase m : Nat) : (dealLoop2 start deck perm nbase m).length = start.length := by
  unfold dealLoop2
  generalize List.range m = l
  induction l generalizing start with
  | nil => rfl
  | cons a t ih =>
    simp only [List.foldl_cons]
    rw [ih, length_pushCard]

theorem length_dealHands (players : List Player) (deck : List Card) (perm : List Nat)
    (base extra : Nat) :
    (dealHands players deck perm base extra).length = players.length := by
  unfold dealHands
  rw [length_dealLoop2, length_dealLoop1]

theorem dealLoop1_succ (players : List Player) (deck : List Card) (perm : List Nat)
    (base m : Nat) :
    dealLoop1 players deck perm base (m + 1) =
      setHand (dealLoop1 players deck perm base m) (perm.getD m 0)
        ((deck.drop (m * base)).take base) := by
  unfold dealLoop1
  rw [List.range_succ, List.foldl_append]
  rfl

theorem dealLoop2_succ (start : List Player) (deck : List Card) (perm : List Nat)
    (nbase m : Nat) :
    dealLoop2 start deck perm nbase (m + 1) =
      pushCard (dealLoop2 start deck perm nbase m) (perm.getD m 0)
        (deck.getD (nbase + m) default) := by
  unfold dealLoop2
  rw [List.range_succ, List.foldl_append]
  rfl

/-- Distinct positions of a duplicate-free index list carry distinct
indices. -/
theorem nodup_getD_ne (perm : List Nat) (hnodup : perm.Nodup) (i k : Nat)
    (hi : i < perm.length) (hk : k < perm.length) (hik : i ≠ k) :
    perm.getD i 0 ≠ perm.getD k 0 := by
  rw [List.getD_eq_getElem perm 0 hi, List.getD_eq_getElem perm 0 hk]
  intro he
  exact hik ((List.Nodup.getElem_inj_iff hnodup).mp he)

theorem dealLoop1_miss (players : List Player) (deck : List Card) (perm : List Nat)
    (base : Nat) (m : Nat) (hm : m ≤ perm.length) (j : Nat)
    (hj : ∀ i, i < m → perm.getD i 0 ≠ j) :
    (dealLoop1 players deck perm base m)[j]? = players[j]? := by
  induction m with
  | zero => rfl
  | succ k ih =>
    rw [dealLoop1_succ, getElem?_setHand, if_neg (fun he => hj k (Nat.lt_succ_self k) he.symm)]
    exact ih (Nat.le_of_succ_le hm) (fun i hi => hj i (Nat.lt_succ_of_lt hi))

theorem dealLoop1_hit (players : List Player) (deck : List Card) (perm : List Nat)
    (base : Nat) (hnodup : perm.Nodup) (m : Nat) (hm : m ≤ perm.length)
    (i : Nat) (hi : i < m) :
    (dealLoop1 players deck perm base m)[perm.getD i 0]? =
      (players[perm.getD i 0]?).map
        (fun p => { p with hand := (deck.drop (i * base)).take base }) := by
  induction m with
  | zero => omega
  | succ k ih =>
    rw [dealLoop1_succ, getElem?_setHand]
    by_cases hik : i = k
    · subst hik
      rw [if_pos rfl,
        dealLoop1_miss players deck perm base i (Nat.le_of_succ_le hm) _
          (fun i' hi' =>
            nodup_getD_ne perm hnodup i' i (by omega) (by omega) (by omega))]
    · rw [if_neg (nodup_getD_ne perm hnodup i k (by omega) (by omega) hik)]
      exact ih (Nat.le_of_succ_le hm) (by omega)

theorem dealLoop2_miss (start : List Player) (deck : List Card) (perm : List Nat)
    (nbase : Nat) (m : Nat) (hm : m ≤ perm.length) (j : Nat)
    (hj : ∀ i, i < m → perm.getD i 0 ≠ j) :
    (dealLoop2 start deck perm nbase m)[j]? = start[j]? := by
  induction m with
  | zero => rfl
  | succ k ih =>
    rw [dealLoop2_succ, getElem?_pushCard, if_neg (fun he => hj k (Nat.lt_succ_self k) he.symm)]
    exact ih (Nat.le_of_succ_le hm) (fun i hi => hj i (Nat.lt_succ_of_lt hi))

theorem dealLoop2_hit (start : List Player) (deck : List Card) (perm : List Nat)
    (nbase : Nat) (hnodup : perm.Nodup) (m : Nat) (hm : m ≤ perm.length)
    (i : Nat) (hi : i < m) :
    (dealLoop2 start deck perm nbase m)[perm.getD i 0]? =
      (start[perm.getD i 0]?).map
        (fun p => { p with hand := p.hand ++ [deck.getD (nbase + i) default] }) := by
  induction m with
  | zero => omega
  | succ k ih =>
    rw [dealLoop2_succ, getElem?_pushCard]
    by_cases hik : i = k
    · subst hik
      rw [if_pos rfl,
        dealLoop2_miss start deck perm nbase i (Nat.le_of_succ_le hm) _
          (fun i' hi' =>
            nodup_getD_ne perm hnodup i' i (by omega) (by omega) (by omega))]
    · rw [if_neg (nodup_getD_ne perm hnodup i k (by omega) (by omega) hik)]
      exact ih (Nat.le_of_succ_le hm) (by omega)

/-- Element-level description of `dealHands`: the seat at `perm[i]` holds
the `i`-th base block plus, for `i < extra`, the `i`-th remainder card. -/
theorem getElem?_dealHands (players : List Player) (deck : List Card) (perm : List Nat)
    (base extra : Nat) (hplen : perm.length = players.length) (hnodup : perm.Nodup)
    (hextra : extra ≤ perm.length) (i : Nat) (hi : i < perm.length) :
    (dealHands players deck perm base extra)[perm.getD i 0]? =
      (players[perm.getD i 0]?).map (fun p =>
        { p with hand := (deck.drop (i * base)).take base ++
            (if i < extra then [deck.getD (players.length * base + i) default]
             else []) }) := by
  unfold dealHands
  by_cases hie : i < extra
  · rw [dealLoop2_hit _ _ _ _ hnodup extra hextra i hie,
      dealLoop1_hit players deck perm base hnodup players.length (le_of_eq hplen.symm) i
        (by omega),
      Option.map_map]
    rw [if_pos hie]
    rfl
  · rw [dealLoop2_miss _ _ _ _ extra hextra _
      (fun i' hi' => nodup_getD_ne perm hnodup i' i (by omega) (by omega) (by omega)),
      dealLoop1_hit players deck perm base hnodup players.length (le_of_eq hplen.symm) i
        (by omega)]
    rw [if_neg hie]
    simp

/-- The multiset of hands after the two dealing loops, read off along the
shuffled order. -/
theorem dealHands_map_hand_perm (players : List Player) (deck : List Card)
    (perm : List Nat) (base extra : Nat)
    (hperm : perm.Perm (List.range players.length))
    (hextra : extra ≤ perm.length) :
    ((dealHands players deck perm base extra).map (·.hand)).Perm
      ((List.range players.length).map (fun i =>
        (deck.drop (i * base)).take base ++
          (if i < extra then [deck.getD (players.length * base + i) default]
           else []))) := by
  have hplen : perm.length = players.length := by simpa using hperm.length_eq
  have hnodup : perm.Nodup := hperm.nodup_iff.mpr (List.nodup_range players.length)
  have hmem : ∀ x ∈ perm, x < players.length := by
    intro x hx
    have := hperm.mem_iff.mp hx
    simpa using this
  have hFlen : (dealHands players deck perm base extra).length = players.length :=
    length_dealHands players deck perm base extra
  have h1 : (dealHands players deck perm base extra).map (·.hand) =
      (List.range players.length).map
        (fun j => (((dealHands players deck perm base extra)[j]?).map (·.hand)).getD []) := by
    apply List.ext_getElem?
    intro k
    rw [List.getElem?_map, List.getElem?_map]
    by_cases hk : k < players.length
    · rw [List.getElem?_range hk]
      have : k < (dealHands players deck perm base extra).length := by omega
      rw [List.getElem?_eq_getElem this]
      simp [List.getElem?_eq_getElem this]
    · have h2 : (dealHands players deck perm base extra)[k]? = none := by
        rw [List.getElem?_eq_none_iff]
        omega
      have h3 : (List.range players.length)[k]? = none := by
        rw [List.getElem?_eq_none_iff]
        simpa using Nat.le_of_not_lt hk
      rw [h2, h3]
      rfl
  have h2 : perm.map
      (fun j => (((dealHands players deck perm base extra)[j]?).map (·.hand)).getD []) =
      (List.range players.length).map (fun i =>
        (deck.drop (i * base)).take base ++
          (if i < extra then [deck.getD (players.length * base + i) default]
           else [])) := by
    apply List.ext_getElem?
    intro k
    rw [List.getElem?_map, List.getElem?_map]
    by_cases hk : k < players.length
    · have hk' : k < perm.length := by omega
      rw [List.getElem?_range hk, List.getElem?_eq_getElem hk']
      simp only [Option.map_some']
      rw [← List.getD_eq_getElem perm 0 hk']
      rw [getElem?_dealHands players deck perm base extra hplen hnodup hextra k hk']
      have hjlt : perm.getD k 0 < players.length := by
        apply hmem
        rw [List.getD_eq_getElem perm 0 hk']
        exact List.getElem_mem hk'
      rw [List.getElem?_eq_getElem hjlt]
      rfl
    · have h3 : perm[k]? = none := by
        rw [List.getElem?_eq_none_iff]
        omega
      have h4 : (List.range players.length)[k]? = none := by
        rw [List.getElem?_eq_none_iff]
        simpa using Nat.le_of_not_lt hk
      rw [h3, h4]
      rfl
  rw [h1, ← h2]
  exact hperm.symm.map _

/-- Concatenating pointwise-concatenated blocks is, up to permutation, the
concatenation of the two block families. -/
theorem flatten_map_append_perm (A B : Nat → List Card) (l : List Nat) :
    ((l.map (fun i => A i ++ B i)).flatten).Perm
      ((l.map A).flatten ++ (l.map B).flatten) := by
  induction l with
  | nil => exact List.Perm.refl _
  | cons a t ih =>
    simp only [List.map_cons, List.flatten_cons]
    refine (List.Perm.append_left (A a ++ B a) ih).trans ?_
    have h3 : ((A a ++ (B a ++ (t.map A).flatten)) ++ (t.map B).flatten).Perm
        ((A a ++ ((t.map A).flatten ++ B a)) ++ (t.map B).flatten) :=
      List.Perm.append_right _ (List.Perm.append_left (A a) List.perm_append_comm)
    have e1 : (A a ++ B a) ++ ((t.map A).flatten ++ (t.map B).flatten) =
        (A a ++ (B a ++ (t.map A).flatten)) ++ (t.map B).flatten := by
      simp only [List.append_assoc]
    have e2 : (A a ++ ((t.map A).flatten ++ B a)) ++ (t.map B).flatten =
        (A a ++ (t.map A).flatten) ++ (B a ++ (t.map B).flatten) := by
      simp only [List.append_assoc]
    rw [e1, ← e2]
    exact h3

/-- Concatenating the base blocks reconstitutes a prefix of the deck. -/
theorem flatten_slices (deck : List Card) (base : Nat) :
    ∀ (m k : Nat),
    (((List.range' k m).map (fun i => (deck.drop (i * base)).take base)).flatten) =
      (deck.drop (k * base)).take (m * base) := by
  intro m
  induction m with
  | zero => intro k; simp
  | succ mm ih =>
    intro k
    rw [List.range'_succ]
    simp only [List.map_cons, List.flatten_cons]
    rw [ih (k + 1)]
    rw [show (mm + 1) * base = base + mm * base from by rw [Nat.succ_mul, Nat.add_comm],
      List.take_add]
    congr 1
    rw [List.drop_drop]
    congr 1
    rw [Nat.succ_mul, Nat.add_comm]

theorem flatten_singletons (f : Nat → Card) (extra : Nat) :
    ∀ (l : List Nat), (∀ x ∈ l, x < extra) →
    ((l.map (fun i => if i < extra then [f i] else [])).flatten) = l.map f := by
  intro l
  induction l with
  | nil => intro _; rfl
  | cons a t ih =>
    intro h
    simp only [List.map_cons, List.flatten_cons]
    rw [if_pos (h a (List.mem_cons_self a t)), ih (fun x hx => h x (List.mem_cons_of_mem a hx))]
    rfl

theorem flatten_empties (f : Nat → Card) (extra : Nat) :
    ∀ (l : List Nat), (∀ x ∈ l, ¬ x < extra) →
    ((l.map (fun i => if i < extra then [f i] else [])).flatten) = [] := by
  intro l
  induction l with
  | nil => intro _; rfl
  | cons a t ih =>
    intro h
    simp only [List.map_cons, List.flatten_cons]
    rw [if_neg (h a (List.mem_cons_self a t)), ih (fun x hx => h x (List.mem_cons_of_mem a hx))]
    rfl

/-- The remainder cards reconstitute the corresponding segment of the deck. -/
theorem flatten_extras (deck : List Card) (nbase n extra : Nat)
    (hen : extra ≤ n) (hlen : nbase + extra ≤ deck.length) :
    (((List.range n).map (fun i =>
        if i < extra then [deck.getD (nbase + i) default] else [])).flatten) =
      (deck.drop nbase).take extra := by
  have hsplit : List.range n =
      List.range extra ++ (List.range (n - extra)).map (extra + ·) := by
    conv_lhs => rw [show n = extra + (n - extra) from by omega, List.range_add]
  rw [hsplit, List.map_append, List.flatten_append]
  rw [flatten_singletons (fun i => deck.getD (nbase + i) default) extra _
    (fun x hx => by simpa using hx)]
  rw [flatten_empties (fun i => deck.getD (nbase + i) default) extra _
      (fun x hx => by
        simp only [List.mem_map, List.mem_range] at hx
        obtain ⟨y, _, rfl⟩ := hx
        simp)]
  rw [List.append_nil]
  apply List.ext_getElem?
  intro k
  by_cases hk : k < extra
  · rw [List.getElem?_map, List.getElem?_range hk, List.getElem?_take, if_pos hk,
      List.getElem?_drop]
    have hklen : nbase + k < deck.length := by omega
    simp only [Option.map_some']
    rw [List.getD_eq_getElem?_getD, List.getElem?_eq_getElem hklen]
    rfl
  · have h3 : ((List.range extra).map
        (fun i => deck.getD (nbase + i) default))[k]? = none := by
      rw [List.getElem?_eq_none_iff]
      simpa using Nat.le_of_not_lt hk
    have h4 : ((deck.drop nbase).take extra)[k]? = none := by
      rw [List.getElem?_eq_none_iff]
      have h5 : ((deck.drop nbase).take extra).length ≤ extra := by
        simp
      omega
    rw [h3, h4]

/-- Every seat's hand after dealing: the whole multiset of hands is, up to
permutation, the dealt deck. -/
theorem dealHands_flatten_perm (players : List Player) (deck : List Card)
    (perm : List Nat) (base extra : Nat)
    (hperm : perm.Perm (List.range players.length))
    (hbe : players.length * base + extra = deck.length)
    (hextra : extra ≤ players.length) :
    ((dealHands players deck perm base extra).map (·.hand)).flatten.Perm deck := by
  have hplen : perm.length = players.length := by simpa using hperm.length_eq
  have h1 := (dealHands_map_hand_perm players deck perm base extra hperm
    (by omega)).flatten
  refine h1.trans ?_
  have h2 := flatten_map_append_perm
    (fun i => (deck.drop (i * base)).take base)
    (fun i => if i < extra then [deck.getD (players.length * base + i) default] else [])
    (List.range players.length)
  refine h2.trans ?_
  have h3 : (((List.range players.length).map
      (fun i => (deck.drop (i * base)).take base)).flatten) =
      deck.take (players.length * base) := by
    rw [List.range_eq_range', flatten_slices deck base players.length 0]
    simp
  have h4 : (((List.range players.length).map
      (fun i => if i < extra then [deck.getD (players.length * base + i) default]
        else [])).flatten) = (deck.drop (players.length * base)).take extra :=
    flatten_extras deck (players.length * base) players.length extra hextra (by omega)
  rw [h3, h4, ← List.take_add, hbe, List.take_length]

/-- Every dealt hand has the base size or one more. -/
theorem dealHands_hand_sizes (players : List Player) (deck : List Card)
    (perm : List Nat) (base extra : Nat)
    (hperm : perm.Perm (List.range players.length))
    (hbe : players.length * base + extra = deck.length)
    (hextra : extra ≤ players.length) (p : Player)
    (hp : p ∈ dealHands players deck perm base extra) :
    p.hand.length = base ∨ p.hand.length = base + 1 := by
  have hplen : perm.length = players.length := by simpa using hperm.length_eq
  have hnodup : perm.Nodup := hperm.nodup_iff.mpr (List.nodup_range players.length)
  obtain ⟨j, hj⟩ := List.mem_iff_getElem?.mp hp
  have hjlen : j < players.length := by
    have := List.getElem?_eq_some_iff.mp hj
    obtain ⟨hlt, _⟩ := this
    rw [length_dealHands] at hlt
    exact hlt
  have hjperm : j ∈ perm := hperm.mem_iff.mpr (by simpa using hjlen)
  obtain ⟨i, hilen, hie⟩ := List.mem_iff_getElem.mp hjperm
  have hid : perm.getD i 0 = j := by rw [List.getD_eq_getElem perm 0 hilen, hie]
  have hchar := getElem?_dealHands players deck perm base extra hplen hnodup
    (by omega) i hilen
  rw [hid, hj] at hchar
  have hplay : j < players.length := hjlen
  rw [List.getElem?_eq_getElem (show j < players.length from hplay)] at hchar
  have hhand : p.hand = (deck.drop (i * base)).take base ++
      (if i < extra then [deck.getD (players.length * base + i) default] else []) := by
    have := congrArg (Option.map (fun q => q.hand)) hchar
    simpa using this
  have hslice : ((deck.drop (i * base)).take base).length = base := by
    rw [List.length_take, List.length_drop]
    have hin : i < players.length := by omega
    have : (i + 1) * base ≤ players.length * base :=
      Nat.mul_le_mul_right base (by omega)
    have : i * base + base ≤ players.length * base := by
      rw [← Nat.succ_mul]
      exact this
    omega
  rw [hhand]
  by_cases hie : i < extra
  · rw [if_pos hie]
    right
    simp [hslice]
  · rw [if_neg hie]
    left
    simp [hslice]

/-- Dealing only rewrites hands: every seat keeps its identity, name, title
and bot flag. -/
theorem getElem?_dealHands_shape (players : List Player) (deck : List Card)
    (perm : List Nat) (base extra : Nat)
    (hperm : perm.Perm (List.range players.length))
    (hextra : extra ≤ players.length) (j : Nat) :
    ∃ hnd, (dealHands players deck perm base extra)[j]? =
      (players[j]?).map (fun p => { p with hand := hnd }) := by
  have hplen : perm.length = players.length := by simpa using hperm.length_eq
  have hnodup : perm.Nodup := hperm.nodup_iff.mpr (List.nodup_range players.length)
  by_cases hj : j < players.length
  · have hjperm : j ∈ perm := hperm.mem_iff.mpr (by simpa using hj)
    obtain ⟨i, hilen, hie⟩ := List.mem_iff_getElem.mp hjperm
    have hid : perm.getD i 0 = j := by rw [List.getD_eq_getElem perm 0 hilen, hie]
    have hchar := getElem?_dealHands players deck perm base extra hplen hnodup
      (by omega) i hilen
    refine ⟨(deck.drop (i * base)).take base ++
      (if i < extra then [deck.getD (players.length * base + i) default] else []), ?_⟩
    rw [← hid]
    exact hchar
  · refine ⟨[], ?_⟩
    have h1 : (dealHands players deck perm base extra)[j]? = none := by
      rw [List.getElem?_eq_none_iff, length_dealHands]
      omega
    have h2 : players[j]? = none := by
      rw [List.getElem?_eq_none_iff]
      omega
    rw [h1, h2]
    rfl

/-- The deal-level packaging of the dealing lemmas. -/
theorem deal_spec (g : Game) (perm : List Nat) (hn : g.players.length ≠ 0)
    (hperm : perm.Perm (List.range g.players.length)) :
    ((deal g perm).players.map (·.hand)).flatten.Perm g.deck ∧
    (deal g perm).deck = [] ∧
    (deal g perm).players.length = g.players.length ∧
    ∀ p ∈ (deal g perm).players,
      p.hand.length = g.deck.length / g.players.length ∨
      p.hand.length = g.deck.length / g.players.length + 1 := by
  have hbe : g.players.length * (g.deck.length / g.players.length) +
      g.deck.length % g.players.length = g.deck.length :=
    Nat.div_add_mod g.deck.length g.players.length
  have hextra : g.deck.length % g.players.length ≤ g.players.length :=
    le_of_lt (Nat.mod_lt _ (Nat.pos_of_ne_zero hn))
  refine ⟨?_, rfl, ?_, ?_⟩
  · exact dealHands_flatten_perm g.players g.deck perm _ _ hperm hbe hextra
  · exact length_dealHands g.players g.deck perm _ _
  · intro p hp
    exact dealHands_hand_sizes g.players g.deck perm _ _ hperm hbe hextra p hp

/-- If the deck was non-empty, somebody was dealt a card. -/
theorem deal_exists_cardholder (g : Game) (perm : List Nat)
    (hn : g.players.length ≠ 0) (hperm : perm.Perm (List.range g.players.length))
    (hdeck : g.deck ≠ []) :
    ∃ p ∈ (deal g perm).players, p.hand ≠ [] := by
  have hflat := (deal_spec g perm hn hperm).1
  by_contra hall
  push_neg at hall
  have hnil : (((deal g perm).players.map (·.hand)).flatten) = [] := by
    rw [List.flatten_eq_nil_iff]
    intro xs hxs
    obtain ⟨p, hp, rfl⟩ := List.mem_map.mp hxs
    exact hall p hp
  rw [hnil] at hflat
  exact hdeck (hflat.nil_eq).symm

/-- Every dealt hand holds at least the base share of the deck. -/
theorem deal_hand_lower (g : Game) (perm : List Nat) (hn : g.players.length ≠ 0)
    (hperm : perm.Perm (List.range g.players.length)) :
    ∀ p ∈ (deal g perm).players,
      g.deck.length / g.players.length ≤ p.hand.length := by
  intro p hp
  rcases (deal_spec g perm hn hperm).2.2.2 p hp with h | h <;> omega

/-- Dealing preserves every seat's identity and title. -/
theorem deal_shape (g : Game) (perm : List Nat) (hn : g.players.length ≠ 0)
    (hperm : perm.Perm (List.range g.players.length)) (j : Nat) :
    ∃ hnd, (deal g perm).players[j]? =
      (g.players[j]?).map (fun p => { p with hand := hnd }) := by
  have hextra : g.deck.length % g.players.length ≤ g.players.length :=
    le_of_lt (Nat.mod_lt _ (Nat.pos_of_ne_zero hn))
  exact getElem?_dealHands_shape g.players g.deck perm _ _ hperm hextra j

/-! ## C5 — the deal partitions the deck -/

/-- C5 (confirmed): for every game, every deck and every shuffle outcome,
after `deal` the multiset of all hands is exactly the pre-deal deck, the
deck field is cleared, and any two hand sizes differ by at most one. -/
theorem c5_confirmed (g : Game) (perm : List Nat) (hn : g.players.length ≠ 0)
    (hperm : perm.Perm (List.range g.players.length)) :
    ((deal g perm).players.map (·.hand)).flatten.Perm g.deck ∧
    (deal g perm).deck = [] ∧
    ∀ p ∈ (deal g perm).players, ∀ q ∈ (deal g perm).players,
      p.hand.length ≤ q.hand.length + 1 := by
  obtain ⟨h1, h2, _, h4⟩ := deal_spec g perm hn hperm
  refine ⟨h1, h2, ?_⟩
  intro p hp q hq
  rcases h4 p hp with h | h <;> rcases h4 q hq with h' | h' <;> omega

/-- C5 witness: instantiation of `c5_confirmed` at a two-player, five-card
game shuffled with the transposition `[1, 0]`. -/
theorem c5_witness :
    gDealW.players.length ≠ 0 ∧
    ([1, 0] : List Nat).Perm (List.range gDealW.players.length) ∧
    ((deal gDealW [1, 0]).players.map (·.hand)).flatten.Perm gDealW.deck ∧
    (deal gDealW [1, 0]).deck = [] ∧
    ∀ p ∈ (deal gDealW [1, 0]).players, ∀ q ∈ (deal gDealW [1, 0]).players,
      p.hand.length ≤ q.hand.length + 1 :=
  ⟨by decide, by decide, c5_confirmed gDealW [1, 0] (by decide) (by decide)⟩

/-! ## Title-assignment lemmas (towards C7) -/

theorem getElem?_titlesPass (k : Nat) (ps : List Player) (i : Nat) :
    (titlesPass k ps)[i]? = (ps[i]?).map (fun p =>
      if emptyUntitled p then
        { p with title := some (titleFor (k + ((ps.take i).filter emptyUntitled).length)) }
      else p) := by
  induction ps generalizing k i with
  | nil => simp [titlesPass]
  | cons p rest ih =>
    by_cases hp : emptyUntitled p = true
    · have hstep : titlesPass k (p :: rest) =
          { p with title := some (titleFor k) } :: titlesPass (k + 1) rest := by
        simp only [titlesPass]
        rw [if_pos hp]
      cases i with
      | zero =>
        rw [hstep]
        simp [hp]
      | succ j =>
        rw [hstep, List.getElem?_cons_succ, List.getElem?_cons_succ, ih (k + 1) j]
        cases hrest : rest[j]? with
        | none => rfl
        | some q =>
          have harith : k + 1 + ((rest.take j).filter emptyUntitled).length =
              k + (((p :: rest).take (j + 1)).filter emptyUntitled).length := by
            rw [List.take_succ_cons, List.filter_cons]
            simp only [hp, if_true, List.length_cons]
            omega
          simp only [Option.map_some', Option.some.injEq]
          by_cases hq : emptyUntitled q = true
          · rw [if_pos hq, if_pos hq, harith]
          · rw [if_neg hq, if_neg hq]
    · have hstep : titlesPass k (p :: rest) = p :: titlesPass k rest := by
        simp only [titlesPass]
        rw [if_neg hp]
      cases i with
      | zero =>
        rw [hstep]
        simp [hp]
      | succ j =>
        rw [hstep, List.getElem?_cons_succ, List.getElem?_cons_succ, ih k j]
        cases hrest : rest[j]? with
        | none => rfl
        | some q =>
          have harith : k + ((rest.take j).filter emptyUntitled).length =
              k + (((p :: rest).take (j + 1)).filter emptyUntitled).length := by
            rw [List.take_succ_cons, List.filter_cons]
            simp only [hp, if_false, Bool.false_eq_true]
          simp only [Option.map_some', Option.some.injEq]
          by_cases hq : emptyUntitled q = true
          · rw [if_pos hq, if_pos hq, harith]
          · rw [if_neg hq, if_neg hq]

theorem length_titlesPass (k : Nat) (ps : List Player) :
    (titlesPass k ps).length = ps.length := by
  induction ps generalizing k with
  | nil => rfl
  | cons p rest ih =>
    by_cases hp : emptyUntitled p = true <;> simp [titlesPass, hp, ih]

theorem assignTitles_players (g : Game) :
    (assignTitles g).players = assignTitlesPlayers g := by
  unfold assignTitles
  split <;> rfl

theorem assignTitles_length (g : Game) :
    (assignTitles g).players.length = g.players.length := by
  rw [assignTitles_players]
  unfold assignTitlesPlayers
  split
  · rw [List.length_map, length_titlesPass]
  · rw [length_titlesPass]

theorem assignTitles_currentTurn (g : Game) :
    (assignTitles g).currentTurn = g.currentTurn := by
  unfold assignTitles
  split <;> rfl

theorem assignTitles_isTestMode (g : Game) :
    (assignTitles g).isTestMode = g.isTestMode := by
  unfold assignTitles
  split <;> rfl

theorem assignTitles_deck (g : Game) :
    (assignTitles g).deck = g.deck := by
  unfold assignTitles
  split <;> rfl

theorem assignTitles_status (g : Game) :
    (assignTitles g).status = "finished" ∨ (assignTitles g).status = g.status := by
  unfold assignTitles
  split
  · exact Or.inl rfl
  · exact Or.inr rfl

/-- Element-level description of the post-title players list. -/
theorem getElem?_assignTitles (g : Game) (i : Nat) :
    (assignTitles g).players[i]? = (g.players[i]?).map (fun p =>
      if remainingCount g == 1 && decide (2 < g.players.length) then
        (if (titledAdjust g i p).hand.length != 0
         then { titledAdjust g i p with title := some "Beggar" }
         else titledAdjust g i p)
      else titledAdjust g i p) := by
  rw [assignTitles_players]
  unfold assignTitlesPlayers
  split
  · next hcond =>
    rw [List.getElem?_map, getElem?_titlesPass, Option.map_map]
    cases hgp : g.players[i]? with
    | none => rfl
    | some p =>
      simp only [Option.map_some', Function.comp_apply]
      rfl
  · next hcond =>
    rw [getElem?_titlesPass]
    cases hgp : g.players[i]? with
    | none => rfl
    | some p =>
      simp only [Option.map_some']
      rfl

theorem titledAdjust_hand (g : Game) (i : Nat) (p : Player) :
    (titledAdjust g i p).hand = p.hand := by
  unfold titledAdjust
  split <;> rfl

/-- After `assignTitles` every hand is unchanged. -/
theorem assignTitles_hands (g : Game) (i : Nat) :
    ((assignTitles g).players[i]?).map (·.hand) = (g.players[i]?).map (·.hand) := by
  rw [getElem?_assignTitles]
  cases hgp : g.players[i]? with
  | none => rfl
  | some p =>
    simp only [Option.map_some', Option.some.injEq]
    by_cases hb : (remainingCount g == 1 && decide (2 < g.players.length)) = true
    · rw [if_pos hb]
      split <;> simp [titledAdjust_hand]
    · rw [if_neg hb]
      exact titledAdjust_hand g i p

/-- After `assignTitles` every empty-handed player carries a title. -/
theorem assignTitles_empty_titled (g : Game) (p2 : Player)
    (hp2 : p2 ∈ (assignTitles g).players) (hh : p2.hand = []) : p2.title ≠ none := by
  obtain ⟨i, hi⟩ := List.mem_iff_getElem?.mp hp2
  rw [getElem?_assignTitles] at hi
  cases hgp : g.players[i]? with
  | none => rw [hgp] at hi; exact absurd hi (by simp)
  | some p =>
    rw [hgp] at hi
    simp only [Option.map_some', Option.some.injEq] at hi
    have hta : (titledAdjust g i p).hand = [] → (titledAdjust g i p).title ≠ none := by
      intro htah
      unfold titledAdjust at htah ⊢
      by_cases hp : emptyUntitled p = true
      · rw [if_pos hp] at htah ⊢
        simp
      · rw [if_neg hp] at htah ⊢
        intro hcon
        exact hp (by simp [emptyUntitled, htah, hcon])
    by_cases hb : (remainingCount g == 1 && decide (2 < g.players.length)) = true
    · rw [if_pos hb] at hi
      by_cases hbh : ((titledAdjust g i p).hand.length != 0) = true
      · rw [if_pos hbh] at hi
        subst hi
        simp at hh ⊢
      · rw [if_neg hbh] at hi
        subst hi
        exact hta hh
    · rw [if_neg hb] at hi
      subst hi
      exact hta hh

/-- If titles were not completed, somebody still holds cards. -/
theorem assignTitles_cardholder (g : Game)
    (hns : (assignTitles g).status ≠ "finished") :
    ∃ p2 ∈ (assignTitles g).players, p2.hand ≠ [] := by
  have hplayers := assignTitles_players g
  unfold assignTitles at hns
  split at hns
  · exact absurd rfl hns
  · next hall =>
    have hex : ∃ p2 ∈ assignTitlesPlayers g, p2.title = none := by
      by_contra hcon
      push_neg at hcon
      apply hall
      rw [List.all_eq_true]
      intro p hp
      simp only [Bool.not_eq_true', beq_eq_false_iff_ne, ne_eq]
      exact hcon p hp
    obtain ⟨p2, hp2, hti⟩ := hex
    refine ⟨p2, by rw [hplayers]; exact hp2, fun hh => ?_⟩
    exact (assignTitles_empty_titled g p2 (by rw [hplayers]; exact hp2) hh) hti

/-! ## C7 — title assignment -/

/-- C7 (confirmed): whenever `assignTitles` runs on a playing game, (i) each
newly-emptied seat — empty hand, no title — receives, in seating order, the
title King / Wise / Civilian determined by the number of previously titled
non-Beggar seats plus the number of newly-emptied seats before it; (ii) when
exactly one of more than two seats still holds cards, that seat receives
Beggar with its hand untouched; (iii) the status becomes `finished` exactly
when every seat ends up titled. -/
theorem c7_confirmed (g : Game) (hstatus : g.status = "playing") :
    (∀ (i : Nat) (p : Player), g.players[i]? = some p → emptyUntitled p = true →
      (assignTitles g).players[i]? =
        some { p with title := some (titleFor (titledCount g + ((g.players.take i).filter emptyUntitled).length)) }) ∧
    (remainingCount g = 1 → 2 < g.players.length →
      ∀ (i : Nat) (p : Player), g.players[i]? = some p → p.hand ≠ [] →
        (assignTitles g).players[i]? = some { p with title := some "Beggar" }) ∧
    ((assignTitles g).status = "finished" ↔
      ∀ p2 ∈ (assignTitles g).players, p2.title ≠ none) := by
  refine ⟨?_, ?_, ?_⟩
  · intro i p hgp heu
    rw [getElem?_assignTitles, hgp, Option.map_some']
    have hhand : (p.hand.length != 0) = false := by
      simp only [emptyUntitled, Bool.and_eq_true, beq_iff_eq] at heu
      simp [heu.1]
    have hta : titledAdjust g i p =
        { p with title := some (titleFor (titledCount g + ((g.players.take i).filter emptyUntitled).length)) } := by
      unfold titledAdjust
      rw [if_pos heu]
    by_cases hb : (remainingCount g == 1 && decide (2 < g.players.length)) = true
    · rw [if_pos hb, hta]
      simp [hhand]
    · rw [if_neg hb, hta]
  · intro hrem hn i p hgp hph
    have hb : (remainingCount g == 1 && decide (2 < g.players.length)) = true := by
      simp [hrem, hn]
    have hlen : p.hand.length ≠ 0 := by
      simpa [List.length_eq_zero] using hph
    have heu : emptyUntitled p = false := by
      simp [emptyUntitled, hlen]
    have hta : titledAdjust g i p = p := by
      unfold titledAdjust
      rw [if_neg (by simp [heu])]
    rw [getElem?_assignTitles, hgp, Option.map_some', if_pos hb, hta,
      if_pos (by simpa using hlen)]
  · unfold assignTitles
    split
    · next hall =>
      simp only [List.all_eq_true, Bool.not_eq_true', beq_eq_false_iff_ne] at hall
      constructor
      · intro _ p hp
        exact hall p (by simpa using hp)
      · intro _
        rfl
    · next hall =>
      constructor
      · intro hcon
        have hpf : ("playing" : String) = "finished" := by
          rw [← hstatus]
          exact hcon
        exact absurd hpf (by decide)
      · intro hforall
        exfalso
        apply hall
        rw [List.all_eq_true]
        intro p hp
        simp only [Bool.not_eq_true', beq_eq_false_iff_ne, ne_eq]
        exact hforall p hp

/-- C7 witness: instantiation of `c7_confirmed` on a three-player game where
two seats just emptied: the status-completion equivalence holds there. -/
theorem c7_witness :
    gTitleW.status = "playing" ∧
    ((assignTitles gTitleW).status = "finished" ↔
      ∀ p2 ∈ (assignTitles gTitleW).players, p2.title ≠ none) :=
  ⟨rfl, (c7_confirmed gTitleW rfl).2.2⟩

/-! ## C1 — play rejection on bad cards or bad remaining hand -/

/-- C1 counterexample: in test mode `playPattern` accepts a play of a card
that is in nobody's hand, together with a submitted remaining hand that is
unrelated to hand-minus-played, in both iterations — the claim's "in every
mode including test mode" fails. -/
theorem c1_counterexample :
    gC1.isTestMode = true ∧
    (∀ p ∈ gC1.players, plainCard "hearts" "4" ∉ p.hand) ∧
    (playPattern gC1 "g-P" [plainCard "hearts" "4"] [plainCard "spades" "K"]).isSome = true ∧
    (GS.playPattern gC1 "g-P" [plainCard "hearts" "4"] [plainCard "spades" "K"]).isSome = true := by
  decide

/-- C1 (amended): outside test mode, whenever the caller is found and either
some played card is missing from the caller's hand or the submitted hand is
not id-for-id the caller's hand minus the played cards, `playPattern` of
both iterations returns `null`, leaving the game unchanged. -/
theorem c1_amended (g : Game) (playerId : String) (cards hand : List Card)
    (hnt : g.isTestMode = false)
    (player : Player) (hfp : findPlayer g.players playerId = some player)
    (hbad : ¬ ((cards.map cardId).all (fun i => (player.hand.map cardId).contains i)) = true
      ∨ sortIds (hand.map cardId) ≠
        sortIds ((player.hand.filter (fun c => !((cards.map cardId).contains (cardId c)))).map cardId)) :
    playPattern g playerId cards hand = none ∧
    GS.playPattern g playerId cards hand = none := by
  have hallf : ∀ b : Bool, ¬ b = true → b = false := fun b h => Bool.eq_false_iff.mpr h
  constructor
  · unfold playPattern
    by_cases hturn : (!g.isTestMode && ((g.players.get? g.currentTurn).map (fun p => p.id) != some playerId)) = true
    · rw [if_pos hturn]
    · rw [if_neg hturn]
      simp only [hfp, hnt, Bool.false_eq_true, if_false]
      rcases hbad with hbad | hbad
      · rw [if_pos (by rw [hallf _ hbad]; decide)]
      · by_cases hall : ((cards.map cardId).all (fun i => (player.hand.map cardId).contains i)) = true
        · rw [if_neg (by rw [hall]; decide),
            if_pos (by simp only [Bool.or_eq_true, bne_iff_ne]; exact Or.inr hbad)]
        · rw [if_pos (by rw [hallf _ hall]; decide)]
  · unfold GS.playPattern
    by_cases hturn : (!g.isTestMode && ((g.players.get? g.currentTurn).map (fun p => p.id) != some playerId)) = true
    · rw [if_pos hturn]
    · rw [if_neg hturn]
      simp only [hfp, hnt, Bool.false_eq_true, if_false]
      rcases hbad with hbad | hbad
      · rw [if_pos (by rw [hallf _ hbad]; decide)]
      · by_cases hall : ((cards.map cardId).all (fun i => (player.hand.map cardId).contains i)) = true
        · rw [if_neg (by rw [hall]; decide),
            if_pos (by simp only [Bool.or_eq_true, bne_iff_ne]; exact Or.inr hbad)]
        · rw [if_pos (by rw [hallf _ hall]; decide)]

/-- C1 witness: with test mode off, the same out-of-hand play is rejected by
both iterations. -/
theorem c1_witness :
    gC1n.isTestMode = false ∧
    playPattern gC1n "g-P" [plainCard "hearts" "4"] [] = none ∧
    GS.playPattern gC1n "g-P" [plainCard "hearts" "4"] [] = none :=
  ⟨rfl, c1_amended gC1n "g-P" [plainCard "hearts" "4"] [] rfl
    { id := "g-P", name := "P", hand := [plainCard "hearts" "3"], title := none }
    (by decide) (Or.inl (by decide))⟩

/-! ## C8 — restart preconditions and effect -/

/-- C8 counterexample: the `gameService.ts` iteration's `restartGame`
succeeds on a freshly created game that is still `waiting` and has no Wise
title holder, so the claimed precondition does not hold of that iteration. -/
theorem c8_counterexample :
    (createGame "g" "A" false).status = "waiting" ∧
    (∀ p ∈ (createGame "g" "A" false).players, p.title ≠ some "Wise") ∧
    (GS.restartGame (createGame "g" "A" false) "g-A" createDeck [0]).isSome = true := by
  decide

/-- Clearing titles does not change the list of hands. -/
theorem map_hand_clear_titles (ps : List Player) :
    (ps.map (fun p => { p with title := none })).map (fun p => p.hand) =
    ps.map (fun p => p.hand) := by
  rw [List.map_map]
  rfl

/-- C8 (amended): the main iteration's `restartGame` fails whenever the game
is not finished or no seat holds the Wise title; when it succeeds, the game
is playing again with pile, counters, round family and titles cleared, the
deck field empty, the freshly shuffled deck redistributed as the players'
hands, and the former Wise holder's seat as the new current turn. -/
theorem c8_amended (g : Game) (playerId : String) (shuffled : List Card)
    (perm : List Nat) (hn : g.players.length ≠ 0)
    (hperm : perm.Perm (List.range g.players.length)) :
    (g.status ≠ "finished" → restartGame g playerId shuffled perm = none) ∧
    (g.players.findIdx? (fun p => p.title == some "Wise") = none →
      restartGame g playerId shuffled perm = none) ∧
    (∀ g2, restartGame g playerId shuffled perm = some g2 →
      g2.status = "playing" ∧ g2.deck = [] ∧ g2.pile = [] ∧
      g2.passCount = 0 ∧ g2.currentPattern = none ∧
      g2.lastPlayedPlayerId = none ∧ g2.passedPlayerIds = [] ∧
      (∀ p ∈ g2.players, p.title = none) ∧
      ((g2.players.map (·.hand)).flatten).Perm shuffled ∧
      g.players.findIdx? (fun p => p.title == some "Wise") = some g2.currentTurn) := by
  refine ⟨?_, ?_, ?_⟩
  · intro hst
    unfold restartGame
    rw [if_pos (by simpa [bne_iff_ne] using hst)]
  · intro hwise
    unfold restartGame
    by_cases h1 : (g.status != "finished") = true
    · rw [if_pos h1]
    · rw [if_neg h1]
      by_cases h2 : (findPlayer g.players playerId).isNone = true
      · rw [if_pos h2]
      · rw [if_neg h2]
        simp only [hwise]
  · intro g2 heq
    unfold restartGame at heq
    by_cases h1 : (g.status != "finished") = true
    · rw [if_pos h1] at heq
      exact absurd heq (by simp)
    · rw [if_neg h1] at heq
      by_cases h2 : (findPlayer g.players playerId).isNone = true
      · rw [if_pos h2] at heq
        exact absurd heq (by simp)
      · rw [if_neg h2] at heq
        cases hw : g.players.findIdx? (fun p => p.title == some "Wise") with
        | none =>
          rw [hw] at heq
          exact absurd heq (by simp)
        | some wiseIdx =>
          rw [hw] at heq
          simp only [Option.some.injEq] at heq
          subst heq
          refine ⟨rfl, rfl, rfl, rfl, rfl, rfl, rfl, ?_, ?_, ?_⟩
          · intro p hp
            obtain ⟨q, _, rfl⟩ := List.mem_map.mp hp
            rfl
          · rw [map_hand_clear_titles]
            refine (deal_spec _ perm ?_ ?_).1
            · exact hn
            · exact hperm
          · rfl

/-- C8 witness: instantiating the amended restart theorem on a finished
three-player game whose Wise holder sits at seat 1. -/
theorem c8_witness :
    gRstW.players.findIdx? (fun p => p.title == some "Wise") = some 1 ∧
    (gRstW.status ≠ "finished" → restartGame gRstW "g-A" createDeck [0, 1, 2] = none) :=
  ⟨by decide, (c8_amended gRstW "g-A" createDeck [0, 1, 2] (by decide) (by decide)).1⟩

/-! ## C6 — helper lemmas about the shared building blocks -/

theorem length_modifyFirstHand (ps : List Player) (pid : String) (h : List Card) :
    (modifyFirstHand ps pid h).length = ps.length := by
  induction ps with
  | nil => rfl
  | cons p rest ih =>
    unfold modifyFirstHand
    by_cases hid : (p.id == pid) = true
    · rw [if_pos hid]
      simp only [List.length_cons, ih]
    · rw [if_neg hid]
      simp only [List.length_cons, ih]

/-- Replacing the first matching player's hand changes each seat either not
at all or — at the seat `find?` returns — to the submitted hand. -/
theorem getElem?_modifyFirstHand (ps : List Player) (pid : String) (h : List Card) (i : Nat) :
    (modifyFirstHand ps pid h)[i]? = ps[i]? ∨
    (∃ p, ps[i]? = some p ∧ findPlayer ps pid = some p ∧
      (modifyFirstHand ps pid h)[i]? = some { p with hand := h }) := by
  induction ps generalizing i with
  | nil => exact Or.inl rfl
  | cons p rest ih =>
    unfold modifyFirstHand
    by_cases hid : (p.id == pid) = true
    · rw [if_pos hid]
      cases i with
      | zero =>
        refine Or.inr ⟨p, by simp, ?_, by simp⟩
        unfold findPlayer
        simp only [List.find?_cons, hid]
      | succ i => exact Or.inl rfl
    · rw [if_neg hid]
      cases i with
      | zero => exact Or.inl (by simp)
      | succ i =>
        rcases ih i with h1 | ⟨q, hq1, hq2, hq3⟩
        · exact Or.inl (by simpa using h1)
        · refine Or.inr ⟨q, by simpa using hq1, ?_, by simpa using hq3⟩
          have hid' : (p.id == pid) = false := by simpa using hid
          unfold findPlayer at hq2 ⊢
          simp only [List.find?_cons, hid']
          exact hq2

theorem mem_modifyFirstHand (ps : List Player) (pid : String) (h : List Card)
    (player : Player) (hfp : findPlayer ps pid = some player) :
    { player with hand := h } ∈ modifyFirstHand ps pid h := by
  induction ps with
  | nil => exact absurd hfp (by simp [findPlayer])
  | cons p rest ih =>
    unfold findPlayer at hfp
    unfold modifyFirstHand
    by_cases hid : (p.id == pid) = true
    · simp only [List.find?_cons, hid] at hfp
      obtain rfl := Option.some.inj hfp
      rw [if_pos hid]
      exact List.mem_cons_self _ _
    · have hid' : (p.id == pid) = false := by simpa using hid
      simp only [List.find?_cons, hid'] at hfp
      rw [if_neg hid]
      exact List.mem_cons_of_mem _ (ih hfp)

theorem hand_bne_of_ne (p : Player) (h : p.hand ≠ []) :
    (p.hand.length != 0) = true := by
  simp only [bne_iff_ne, ne_eq, List.length_eq_zero]
  exact h

theorem ne_nil_of_length_bne (l : List Card) (h : (l.length != 0) = true) : l ≠ [] := by
  simp only [bne_iff_ne, ne_eq, List.length_eq_zero] at h
  exact h

/-- The scanning loop of `getNextValidPlayerIndex` finds a seat with cards
whenever one lies within its fuel. -/
theorem nextValidAux_spec (ps : List Player) (fuel : Nat) :
    ∀ index, index < ps.length →
    (∃ k, k < fuel ∧ (((ps.getD ((index + k) % ps.length) default).hand.length != 0) = true)) →
    ∃ j, nextValidAux ps index fuel = some j ∧ j < ps.length ∧
      (ps.getD j default).hand ≠ [] := by
  induction fuel with
  | zero =>
    intro index _ hex
    obtain ⟨k, hk, _⟩ := hex
    omega
  | succ fuel ih =>
    intro index hidx hex
    by_cases hc : (((ps.getD index default).hand.length != 0) = true)
    · refine ⟨index, ?_, hidx, ne_nil_of_length_bne _ hc⟩
      simp only [nextValidAux]
      rw [if_pos hc]
    · have h0 : 0 < ps.length := by omega
      have hex' : ∃ k, k < fuel ∧
          (((ps.getD (((index + 1) % ps.length + k) % ps.length) default).hand.length != 0) = true) := by
        obtain ⟨k, hk, hkp⟩ := hex
        cases k with
        | zero =>
          exfalso
          apply hc
          rw [Nat.add_zero, Nat.mod_eq_of_lt hidx] at hkp
          exact hkp
        | succ k =>
          refine ⟨k, by omega, ?_⟩
          have harith : ((index + 1) % ps.length + k) % ps.length =
              (index + (k + 1)) % ps.length := by
            rw [Nat.mod_add_mod, Nat.add_assoc, Nat.add_comm 1 k]
          rw [harith]
          exact hkp
      obtain ⟨j, hj1, hj2, hj3⟩ := ih ((index + 1) % ps.length) (Nat.mod_lt _ h0) hex'
      refine ⟨j, ?_, hj2, hj3⟩
      simp only [nextValidAux]
      rw [if_neg hc]
      exact hj1

/-- From any start, some cyclic offset within one lap hits a card-holding
seat, provided one exists. -/
theorem exists_cardholder_offset (ps : List Player) (index : Nat) (hidx : index < ps.length)
    (hex : ∃ p ∈ ps, p.hand ≠ []) :
    ∃ k, k < ps.length ∧
      (((ps.getD ((index + k) % ps.length) default).hand.length != 0) = true) := by
  obtain ⟨p, hp, hph⟩ := hex
  obtain ⟨m, hm, hpm⟩ := List.mem_iff_getElem.mp hp
  by_cases hc : index ≤ m
  · refine ⟨m - index, by omega, ?_⟩
    have h1 : index + (m - index) = m := by omega
    rw [h1, Nat.mod_eq_of_lt hm, List.getD_eq_getElem ps default hm, hpm]
    exact hand_bne_of_ne p hph
  · refine ⟨m + ps.length - index, by omega, ?_⟩
    have h1 : index + (m + ps.length - index) = m + ps.length := by omega
    rw [h1, Nat.add_mod_right, Nat.mod_eq_of_lt hm,
      List.getD_eq_getElem ps default hm, hpm]
    exact hand_bne_of_ne p hph

/-- The `getD`-level statement of `getNextValidPlayerIndex`'s guarantee. -/
theorem nextValid_getD_spec (ps : List Player) (start : Nat)
    (hex : ∃ p ∈ ps, p.hand ≠ []) :
    ∃ p, ps.get? ((nextValidAux ps (start % ps.length) ps.length).getD start) = some p ∧
      p.hand ≠ [] := by
  have hlen : 0 < ps.length := by
    obtain ⟨p, hp, _⟩ := hex
    exact List.length_pos.mpr (List.ne_nil_of_mem hp)
  have hidx : start % ps.length < ps.length := Nat.mod_lt _ hlen
  obtain ⟨k, hk, hkp⟩ := exists_cardholder_offset ps (start % ps.length) hidx hex
  obtain ⟨j, hj1, hj2, hj3⟩ := nextValidAux_spec ps ps.length (start % ps.length) hidx ⟨k, hk, hkp⟩
  rw [hj1, Option.getD_some]
  refine ⟨ps.getD j default, ?_, hj3⟩
  rw [List.get?_eq_getElem?, List.getElem?_eq_getElem hj2, List.getD_eq_getElem _ _ hj2]

/-- Whenever anybody holds cards, `getNextValidPlayerIndex` lands on a seat
that holds cards. -/
theorem getNextValidPlayerIndex_spec (g : Game) (start : Nat)
    (hex : ∃ p ∈ g.players, p.hand ≠ []) :
    ∃ p, g.players.get? (getNextValidPlayerIndex g start) = some p ∧ p.hand ≠ [] := by
  unfold getNextValidPlayerIndex
  exact nextValid_getD_spec g.players start hex

/-- After `assignTitles`, a game whose hands are all empty is finished. -/
theorem assignTitles_all_empty_finished (g : Game)
    (hall : ∀ p ∈ g.players, p.hand = []) : (assignTitles g).status = "finished" := by
  by_contra hns
  obtain ⟨p2, hp2, hne⟩ := assignTitles_cardholder g hns
  obtain ⟨i, hi⟩ := List.mem_iff_getElem?.mp hp2
  have hh := assignTitles_hands g i
  rw [hi] at hh
  cases hgp : g.players[i]? with
  | none => rw [hgp] at hh; exact absurd hh (by simp)
  | some q =>
    rw [hgp] at hh
    simp only [Option.map_some', Option.some.injEq] at hh
    exact hne (hh.trans (hall q (List.mem_iff_getElem?.mpr ⟨i, hgp⟩)))

theorem players_singleton_of_le_one (ps : List Player) (pid : String) (player : Player)
    (hfp : findPlayer ps pid = some player) (hle : ps.length ≤ 1) :
    ps = [player] ∧ (player.id == pid) = true := by
  cases ps with
  | nil => exact absurd hfp (by simp [findPlayer])
  | cons p rest =>
    have hrest : rest = [] := by
      cases rest with
      | nil => rfl
      | cons q qs => simp [List.length_cons] at hle
    subst hrest
    unfold findPlayer at hfp
    by_cases hid : (p.id == pid) = true
    · simp only [List.find?_cons, hid] at hfp
      obtain rfl := Option.some.inj hfp
      exact ⟨rfl, hid⟩
    · have hid' : (p.id == pid) = false := by simpa using hid
      simp only [List.find?_cons, hid'] at hfp
      exact absurd hfp (by simp)

theorem modifyFirstHand_singleton (player : Player) (pid : String) (h : List Card)
    (hid : (player.id == pid) = true) :
    modifyFirstHand [player] pid h = [{ player with hand := h }] := by
  unfold modifyFirstHand
  rw [if_pos hid]

theorem GS_updatePattern_fields (cards : List Card) (g : Game) :
    (GS.updatePattern cards g).players = g.players ∧
    (GS.updatePattern cards g).status = g.status ∧
    (GS.updatePattern cards g).deck = g.deck ∧
    (GS.updatePattern cards g).currentTurn = g.currentTurn ∧
    (GS.updatePattern cards g).isTestMode = g.isTestMode := by
  unfold GS.updatePattern
  dsimp only
  repeat first | exact ⟨rfl, rfl, rfl, rfl, rfl⟩ | split

theorem deal_players_length (g : Game) (perm : List Nat) :
    (deal g perm).players.length = g.players.length := by
  unfold deal
  exact length_dealHands g.players g.deck perm _ _

theorem length_insertStr (a : String) (l : List String) :
    (insertStr a l).length = l.length + 1 := by
  induction l with
  | nil => rfl
  | cons b bs ih =>
    unfold insertStr
    by_cases hc : strLe a b = true
    · rw [if_pos hc]
      simp [List.length_cons]
    · rw [if_neg hc]
      simp only [List.length_cons, ih]

theorem length_sortIds (l : List String) : (sortIds l).length = l.length := by
  induction l with
  | nil => rfl
  | cons a as ih =>
    unfold sortIds
    rw [length_insertStr, ih, List.length_cons]

/-- A game whose seats, status, deck and mode agree with an invariant-bearing
game keeps the invariant when its turn is re-picked by
`getNextValidPlayerIndex`. -/
theorem inv_pass_result (g gx : Game) (start : Nat)
    (hplayers : gx.players = g.players) (hstatus : gx.status = g.status)
    (hdeck : gx.deck = g.deck) (htest : gx.isTestMode = g.isTestMode)
    (hinv : TurnInv g) :
    TurnInv { gx with currentTurn := getNextValidPlayerIndex gx start } := by
  obtain ⟨i1, i2, i3, i4⟩ := hinv
  refine ⟨?_, ?_, ?_, ?_⟩
  · intro hp
    have hgp : g.status = "playing" := by rw [← hstatus]; exact hp
    obtain ⟨q, hq1, hq2⟩ := i1 hgp
    have hex : ∃ p ∈ gx.players, p.hand ≠ [] :=
      ⟨q, by rw [hplayers]; exact List.get?_mem hq1, hq2⟩
    exact getNextValidPlayerIndex_spec gx start hex
  · intro hw
    have hgw : g.status = "waiting" := by rw [← hstatus]; exact hw
    show gx.deck ≠ []
    rw [hdeck]
    exact i2 hgw
  · show gx.players.length ≤ 6
    rw [hplayers]
    exact i3
  · intro ht
    obtain ⟨h1, h2⟩ := i4 (by rw [← htest]; exact ht)
    refine ⟨?_, ?_⟩
    · show gx.status ≠ "waiting"
      rw [hstatus]
      exact h1
    · show gx.players.length ≤ 1
      rw [hplayers]
      exact h2

/-- The turn-advance tail shared by `playPattern`'s accepting branches
preserves the invariant. -/
theorem inv_play_step (g K : Game)
    (hKlen : K.players.length = g.players.length)
    (hKdeck : K.deck = g.deck)
    (hKtest : K.isTestMode = g.isTestMode)
    (hKstatus : K.status = "finished" ∨ K.status = g.status)
    (hKcard : K.status ≠ "finished" → ∃ p ∈ K.players, p.hand ≠ [])
    (hinv : TurnInv g) :
    TurnInv (if K.status != "finished"
      then { K with currentTurn :=
        getNextValidPlayerIndex K ((K.currentTurn + 1) % K.players.length) }
      else K) := by
  obtain ⟨i1, i2, i3, i4⟩ := hinv
  by_cases hfin : (K.status != "finished") = true
  · rw [if_pos hfin]
    have hne : K.status ≠ "finished" := by simpa [bne_iff_ne] using hfin
    have hex := hKcard hne
    refine ⟨?_, ?_, ?_, ?_⟩
    · intro _
      exact getNextValidPlayerIndex_spec K _ hex
    · intro hw
      have hw' : K.status = "waiting" := hw
      rcases hKstatus with hf | hgs
      · rw [hf] at hw'
        exact absurd hw' (by decide)
      · rw [hgs] at hw'
        show K.deck ≠ []
        rw [hKdeck]
        exact i2 hw'
    · show K.players.length ≤ 6
      rw [hKlen]
      exact i3
    · intro ht
      obtain ⟨hsw, hle⟩ := i4 (by rw [← hKtest]; exact ht)
      refine ⟨?_, ?_⟩
      · show K.status ≠ "waiting"
        rcases hKstatus with hf | hgs
        · rw [hf]; exact (by decide)
        · rw [hgs]; exact hsw
      · show K.players.length ≤ 1
        rw [hKlen]
        exact hle
  · rw [if_neg hfin]
    have hf : K.status = "finished" := by simpa [bne_iff_ne, not_not] using hfin
    refine ⟨?_, ?_, ?_, ?_⟩
    · intro hp
      have hp' : K.status = "playing" := hp
      rw [hf] at hp'
      exact absurd hp' (by decide)
    · intro hw
      have hw' : K.status = "waiting" := hw
      rw [hf] at hw'
      exact absurd hw' (by decide)
    · rw [hKlen]
      exact i3
    · intro ht
      obtain ⟨_, hle⟩ := i4 (by rw [← hKtest]; exact ht)
      refine ⟨?_, ?_⟩
      · show K.status ≠ "waiting"
        rw [hf]
        exact (by decide)
      · rw [hKlen]
        exact hle

/-- The test-mode accepting branch of `playPattern` preserves the
invariant. -/
theorem inv_play_step_test (g H : Game) (pid : String) (hand : List Card) (player : Player)
    (hfp : findPlayer g.players pid = some player)
    (hplayers : H.players = modifyFirstHand g.players pid hand)
    (hstatus : H.status = g.status) (hdeck : H.deck = g.deck)
    (hturn : H.currentTurn = g.currentTurn) (htest : H.isTestMode = g.isTestMode)
    (htm : g.isTestMode = true) (hinv : TurnInv g) :
    TurnInv (if hand.length == 0 then assignTitles H else H) := by
  obtain ⟨i1, i2, i3, i4⟩ := hinv
  obtain ⟨hsw, hle⟩ := i4 htm
  obtain ⟨hsingle, hidp⟩ := players_singleton_of_le_one g.players pid player hfp hle
  by_cases hhand : (hand.length == 0) = true
  · rw [if_pos hhand]
    have hhand' : hand = [] := by simpa [List.length_eq_zero] using hhand
    have hallempty : ∀ p ∈ H.players, p.hand = [] := by
      intro p hp
      rw [hplayers, hsingle, modifyFirstHand_singleton player pid hand hidp] at hp
      obtain rfl | hfalse := List.mem_cons.mp hp
      · exact hhand'
      · exact absurd hfalse (List.not_mem_nil _)
    have hfin := assignTitles_all_empty_finished H hallempty
    refine ⟨?_, ?_, ?_, ?_⟩
    · intro hp
      rw [hfin] at hp
      exact absurd hp (by decide)
    · intro hw
      rw [hfin] at hw
      exact absurd hw (by decide)
    · rw [assignTitles_length, hplayers, length_modifyFirstHand]
      exact i3
    · intro _
      refine ⟨?_, ?_⟩
      · rw [hfin]
        exact (by decide)
      · rw [assignTitles_length, hplayers, length_modifyFirstHand]
        exact hle
  · rw [if_neg hhand]
    have hhandne : hand ≠ [] := fun hcon => hhand (by rw [hcon]; rfl)
    refine ⟨?_, ?_, ?_, ?_⟩
    · intro hp
      have hgp : g.status = "playing" := by rw [← hstatus]; exact hp
      obtain ⟨q, hq1, hq2⟩ := i1 hgp
      rw [hplayers, hturn]
      rw [List.get?_eq_getElem?] at hq1 ⊢
      rcases getElem?_modifyFirstHand g.players pid hand g.currentTurn with hsame | ⟨r, _, _, hr3⟩
      · exact ⟨q, by rw [hsame]; exact hq1, hq2⟩
      · exact ⟨{ r with hand := hand }, hr3, hhandne⟩
    · intro hw
      have hgw : g.status = "waiting" := by rw [← hstatus]; exact hw
      exact absurd hgw hsw
    · rw [hplayers, length_modifyFirstHand]
      exact i3
    · intro _
      refine ⟨?_, ?_⟩
      · rw [hstatus]
        exact hsw
      · rw [hplayers, length_modifyFirstHand]
        exact hle

/-- An accepted `playPattern` (gameService.ts iteration) preserves the
invariant. -/
theorem GS_playPattern_inv (g : Game) (pid : String) (cards hand : List Card) (g2 : Game)
    (hs : GS.playPattern g pid cards hand = some g2) (hinv : TurnInv g) :
    TurnInv g2 := by
  have hallf : ∀ b : Bool, ¬ b = true → b = false := fun b h => Bool.eq_false_iff.mpr h
  unfold GS.playPattern at hs
  by_cases hturn : (!g.isTestMode && ((g.players.get? g.currentTurn).map (fun p => p.id) != some pid)) = true
  · rw [if_pos hturn] at hs
    simp at hs
  · rw [if_neg hturn] at hs
    cases hfp : findPlayer g.players pid with
    | none =>
      simp only [hfp] at hs
      simp at hs
    | some player =>
      simp only [hfp] at hs
      by_cases htm : g.isTestMode = true
      · rw [if_pos htm] at hs
        by_cases hv : GS.validatePattern cards none none = true
        · rw [if_pos hv] at hs
          simp only [Option.some.injEq] at hs
          subst hs
          refine inv_play_step_test g _ pid hand player hfp ?_ ?_ ?_ ?_ ?_ htm hinv
          · exact (GS_updatePattern_fields cards _).1.trans rfl
          · exact (GS_updatePattern_fields cards _).2.1.trans rfl
          · exact (GS_updatePattern_fields cards _).2.2.1.trans rfl
          · exact (GS_updatePattern_fields cards _).2.2.2.1.trans rfl
          · exact (GS_updatePattern_fields cards _).2.2.2.2.trans rfl
        · rw [if_neg hv] at hs
          simp at hs
      · rw [if_neg htm] at hs
        by_cases hall : ((cards.map cardId).all (fun i => (player.hand.map cardId).contains i)) = true
        · rw [if_neg (by rw [hall]; decide)] at hs
          by_cases hsub : ((sortIds (hand.map cardId)).length != (sortIds ((player.hand.filter (fun c => !((cards.map cardId).contains (cardId c)))).map cardId)).length || sortIds (hand.map cardId) != sortIds ((player.hand.filter (fun c => !((cards.map cardId).contains (cardId c)))).map cardId)) = true
          · rw [if_pos hsub] at hs
            simp at hs
          · rw [if_neg hsub] at hs
            by_cases hv : GS.validatePattern cards g.pile.getLast? g.currentPattern = true
            · rw [if_pos hv] at hs
              rw [← apply_ite some] at hs
              simp only [Option.some.injEq] at hs
              subst hs
              refine inv_play_step g _ ?_ ?_ ?_ ?_ ?_ hinv
              · by_cases hhand : (hand.length == 0) = true
                · rw [if_pos hhand, assignTitles_length, (GS_updatePattern_fields cards _).1]
                  exact length_modifyFirstHand g.players pid hand
                · rw [if_neg hhand, (GS_updatePattern_fields cards _).1]
                  exact length_modifyFirstHand g.players pid hand
              · by_cases hhand : (hand.length == 0) = true
                · rw [if_pos hhand, assignTitles_deck, (GS_updatePattern_fields cards _).2.2.1]
                · rw [if_neg hhand, (GS_updatePattern_fields cards _).2.2.1]
              · by_cases hhand : (hand.length == 0) = true
                · rw [if_pos hhand, assignTitles_isTestMode, (GS_updatePattern_fields cards _).2.2.2.2]
                · rw [if_neg hhand, (GS_updatePattern_fields cards _).2.2.2.2]
              · by_cases hhand : (hand.length == 0) = true
                · rw [if_pos hhand]
                  exact Or.imp (fun h => h)
                    (fun h => h.trans ((GS_updatePattern_fields cards _).2.1.trans rfl))
                    (assignTitles_status _)
                · rw [if_neg hhand]
                  exact Or.inr ((GS_updatePattern_fields cards _).2.1.trans rfl)
              · intro hne
                by_cases hhand : (hand.length == 0) = true
                · rw [if_pos hhand] at hne ⊢
                  exact assignTitles_cardholder _ hne
                · rw [if_neg hhand] at hne ⊢
                  have hhandne : hand ≠ [] := fun hcon => hhand (by rw [hcon]; rfl)
                  rw [(GS_updatePattern_fields cards _).1]
                  exact ⟨{ player with hand := hand },
                    mem_modifyFirstHand g.players pid hand player hfp, hhandne⟩
            · rw [if_neg hv] at hs
              simp at hs
        · rw [if_pos (by rw [hallf _ hall]; decide)] at hs
          simp at hs

/-- An accepted `pass` preserves the invariant. -/
theorem pass_inv (g : Game) (pid : String) (g2 : Game)
    (hs : passCmd g pid = some g2) (hinv : TurnInv g) : TurnInv g2 := by
  unfold passCmd at hs
  by_cases hturn : (!g.isTestMode && ((g.players.get? g.currentTurn).map (fun p => p.id) != some pid)) = true
  · rw [if_pos hturn] at hs
    simp at hs
  · rw [if_neg hturn] at hs
    by_cases htm : g.isTestMode = true
    · rw [if_pos htm] at hs
      simp only [Option.some.injEq] at hs
      subst hs
      exact hinv
    · rw [if_neg htm] at hs
      cases hfp : findPlayer g.players pid with
      | none =>
        simp only [hfp] at hs
        simp at hs
      | some player =>
        simp only [hfp] at hs
        by_cases hguard : (g.pile.length == 0 && g.passCount == 0 && player.hand.length != 0) = true
        · rw [if_pos hguard] at hs
          simp at hs
        · rw [if_neg hguard] at hs
          by_cases hcont : (!(g.passedPlayerIds.contains pid)) = true
          · rw [if_pos hcont] at hs
            split at hs
            all_goals simp only [Option.some.injEq] at hs
            all_goals subst hs
            all_goals exact inv_pass_result g _ _ rfl rfl rfl rfl hinv
          · rw [if_neg hcont] at hs
            split at hs
            all_goals simp only [Option.some.injEq] at hs
            all_goals subst hs
            all_goals exact inv_pass_result g _ _ rfl rfl rfl rfl hinv

/-- An accepted `joinGame` preserves the invariant. -/
theorem joinGame_inv (g : Game) (name : String) (g2 : Game)
    (hs : joinGame g name = some g2) (hinv : TurnInv g) : TurnInv g2 := by
  obtain ⟨i1, i2, i3, i4⟩ := hinv
  unfold joinGame at hs
  by_cases h1 : (g.status != "waiting") = true
  · rw [if_pos h1] at hs
    simp at hs
  · rw [if_neg h1] at hs
    have hw : g.status = "waiting" := by simpa [bne_iff_ne, not_not] using h1
    by_cases h2 : 6 ≤ g.players.length
    · rw [if_pos h2] at hs
      simp at hs
    · rw [if_neg h2] at hs
      by_cases h3 : (g.players.any fun p => p.name == name) = true
      · rw [if_pos h3] at hs
        simp at hs
      · rw [if_neg h3] at hs
        simp only [Option.some.injEq] at hs
        subst hs
        refine ⟨?_, ?_, ?_, ?_⟩
        · intro hp
          have hp' : g.status = "playing" := hp
          rw [hw] at hp'
          exact absurd hp' (by decide)
        · intro _
          show g.deck ≠ []
          exact i2 hw
        · show (g.players ++ [_]).length ≤ 6
          rw [List.length_append]
          simp only [List.length_cons, List.length_nil]
          omega
        · intro ht
          have ht' : g.isTestMode = true := ht
          obtain ⟨hnw, _⟩ := i4 ht'
          exact absurd hw hnw

/-- An accepted `startGame` (gameService.ts iteration) establishes the
invariant whenever the shuffled deck is non-empty and the seats are few
enough. -/
theorem GS_startGame_inv (g : Game) (shuffled : List Card) (perm : List Nat) (g2 : Game)
    (hs : GS.startGame g shuffled perm = some g2)
    (hshufne : shuffled ≠ []) (hperm : perm.Perm (List.range g.players.length))
    (hn : g.players.length ≠ 0) (h6 : g.players.length ≤ 6)
    (hto : g.isTestMode = true → g.players.length ≤ 1) : TurnInv g2 := by
  unfold GS.startGame at hs
  by_cases h1 : ((g.status != "waiting") && !g.isTestMode) = true
  · rw [if_pos h1] at hs
    simp at hs
  · rw [if_neg h1] at hs
    by_cases h2 : (!g.isTestMode && (decide (g.players.length < 3) || decide (6 < g.players.length))) = true
    · rw [if_pos h2] at hs
      simp at hs
    · rw [if_neg h2] at hs
      simp only [Option.some.injEq] at hs
      subst hs
      have hex := deal_exists_cardholder
        { g with status := "playing", deck := shuffled } perm hn hperm hshufne
      refine ⟨?_, ?_, ?_, ?_⟩
      · intro _
        exact getNextValidPlayerIndex_spec _ 0 hex
      · intro hw
        have hw' : ("playing" : String) = "waiting" := hw
        exact absurd hw' (by decide)
      · show (deal _ _).players.length ≤ 6
        rw [deal_players_length]
        exact h6
      · intro ht
        refine ⟨?_, ?_⟩
        · exact (by decide : ("playing" : String) ≠ "waiting")
        · show (deal _ _).players.length ≤ 1
          rw [deal_players_length]
          exact hto ht

/-- An accepted `startGameManually` (gameService.ts iteration) preserves the
invariant. -/
theorem GS_startGameManually_inv (g : Game) (pid : String) (shuffled : List Card)
    (perm : List Nat) (g2 : Game)
    (hs : GS.startGameManually g pid shuffled perm = some g2)
    (hshuf : shuffled.Perm g.deck) (hperm : perm.Perm (List.range g.players.length))
    (hinv : TurnInv g) : TurnInv g2 := by
  obtain ⟨i1, i2, i3, i4⟩ := hinv
  unfold GS.startGameManually at hs
  by_cases h1 : (g.status != "waiting") = true
  · rw [if_pos h1] at hs
    simp at hs
  · rw [if_neg h1] at hs
    have hw : g.status = "waiting" := by simpa [bne_iff_ne, not_not] using h1
    by_cases h2 : (decide (g.players.length < 3) || decide (6 < g.players.length)) = true
    · rw [if_pos h2] at hs
      simp at hs
    · rw [if_neg h2] at hs
      simp only [Bool.or_eq_true, decide_eq_true_eq, not_or] at h2
      by_cases h3 : (g.players.any fun p => p.id == pid) = true
      · rw [if_neg (by rw [h3]; decide)] at hs
        have hdeckne : g.deck ≠ [] := i2 hw
        have hshufne : shuffled ≠ [] := by
          intro hcon
          apply hdeckne
          have := hshuf.length_eq
          rw [hcon] at this
          simpa [List.length_eq_zero] using this.symm
        refine GS_startGame_inv g shuffled perm g2 hs hshufne hperm (by omega) (by omega) ?_
        intro ht
        obtain ⟨hnw, _⟩ := i4 ht
        exact absurd hw hnw
      · rw [if_pos (by rw [Bool.eq_false_iff.mpr h3]; decide)] at hs
        simp at hs

theorem get?_spec_of_all (ps : List Player) (k : Nat) (hk : k < ps.length)
    (hall : ∀ p ∈ ps, p.hand ≠ []) :
    ∃ p, ps.get? k = some p ∧ p.hand ≠ [] := by
  rw [List.get?_eq_getElem?, List.getElem?_eq_getElem hk]
  exact ⟨ps[k], rfl, hall _ (List.getElem_mem hk)⟩

/-- The common tail of `restartGame`: dealing a full fresh deck to at most
six seats and handing the turn to a valid seat keeps the invariant. -/
theorem inv_restart_result (g G1 : Game) (perm : List Nat) (w : Option Nat)
    (hG1p : G1.players.length = g.players.length)
    (hG1deck : G1.deck.Perm createDeck)
    (hG1status : G1.status = "playing")
    (hG1test : G1.isTestMode = g.isTestMode)
    (hn : g.players.length ≠ 0) (h6 : g.players.length ≤ 6)
    (hperm : perm.Perm (List.range g.players.length))
    (hwk : ∀ k, w = some k → k < g.players.length)
    (hinv4 : g.isTestMode = true → g.players.length ≤ 1) :
    TurnInv { deal G1 perm with currentTurn := restartTurn w (deal G1 perm) } := by
  have hdl : (deal G1 perm).players.length = g.players.length := by
    rw [deal_players_length]; exact hG1p
  have hperm1 : perm.Perm (List.range G1.players.length) := by
    rw [hG1p]; exact hperm
  have hn1 : G1.players.length ≠ 0 := by rw [hG1p]; exact hn
  have h55 : G1.deck.length = 55 := by rw [hG1deck.length_eq]; decide
  have h1le : 1 ≤ 55 / g.players.length := by
    rw [Nat.one_le_div_iff (Nat.pos_of_ne_zero hn)]
    omega
  have hall : ∀ p ∈ (deal G1 perm).players, p.hand ≠ [] := by
    intro p hp
    have hlow := deal_hand_lower G1 perm hn1 hperm1 p hp
    rw [h55, hG1p] at hlow
    intro hcon
    rw [hcon] at hlow
    simp only [List.length_nil, Nat.le_zero] at hlow
    omega
  have hstx : (deal G1 perm).status = G1.status := rfl
  cases w with
  | none =>
    refine ⟨?_, ?_, ?_, ?_⟩
    · intro _
      have hex : ∃ p ∈ (deal G1 perm).players, p.hand ≠ [] := by
        obtain ⟨p, hp⟩ := List.exists_mem_of_length_pos
          (by rw [hdl]; exact Nat.pos_of_ne_zero hn)
        exact ⟨p, hp, hall p hp⟩
      exact getNextValidPlayerIndex_spec _ 0 hex
    · intro hwst
      have hx : G1.status = "waiting" := hwst
      rw [hG1status] at hx
      exact absurd hx (by decide)
    · show (deal G1 perm).players.length ≤ 6
      rw [hdl]; exact h6
    · intro ht
      have ht' : g.isTestMode = true := by rw [← hG1test]; exact ht
      refine ⟨?_, ?_⟩
      · show (deal G1 perm).status ≠ "waiting"
        rw [hstx, hG1status]
        exact (by decide)
      · show (deal G1 perm).players.length ≤ 1
        rw [hdl]; exact hinv4 ht'
  | some k =>
    have hk := hwk k rfl
    refine ⟨?_, ?_, ?_, ?_⟩
    · intro _
      exact get?_spec_of_all (deal G1 perm).players k (by rw [hdl]; exact hk) hall
    · intro hwst
      have hx : G1.status = "waiting" := hwst
      rw [hG1status] at hx
      exact absurd hx (by decide)
    · show (deal G1 perm).players.length ≤ 6
      rw [hdl]; exact h6
    · intro ht
      have ht' : g.isTestMode = true := by rw [← hG1test]; exact ht
      refine ⟨?_, ?_⟩
      · show (deal G1 perm).status ≠ "waiting"
        rw [hstx, hG1status]
        exact (by decide)
      · show (deal G1 perm).players.length ≤ 1
        rw [hdl]; exact hinv4 ht'

/-- An accepted `restartGame` (gameService.ts iteration) preserves the
invariant whenever the new deck is a permutation of a fresh deck. -/
theorem GS_restartGame_inv (g : Game) (pid : String) (shuffled : List Card)
    (perm : List Nat) (gout : Game)
    (hs : GS.restartGame g pid shuffled perm = some gout)
    (hshuf : shuffled.Perm createDeck)
    (hperm : perm.Perm (List.range g.players.length))
    (hinv : TurnInv g) : TurnInv gout := by
  obtain ⟨i1, i2, i3, i4⟩ := hinv
  unfold GS.restartGame at hs
  by_cases h1 : (g.players.any fun p => p.id == pid) = true
  · rw [if_neg (by rw [h1]; decide)] at hs
    simp only [Option.some.injEq] at hs
    subst hs
    have hn : g.players.length ≠ 0 := by
      obtain ⟨p, hp, _⟩ := List.any_eq_true.mp h1
      have := List.length_pos.mpr (List.ne_nil_of_mem hp)
      omega
    refine inv_restart_result g _ perm _ ?_ ?_ ?_ ?_ hn i3 hperm ?_ (fun ht => (i4 ht).2)
    · exact List.length_map _ _
    · exact hshuf
    · rfl
    · rfl
    · intro k hk
      exact (List.findIdx?_eq_some_iff_findIdx_eq.mp hk).1
  · rw [if_pos (by rw [Bool.eq_false_iff.mpr h1]; decide)] at hs
    simp at hs

/-- An accepted `leaveGame` preserves the invariant. -/
theorem leaveGame_inv (g : Game) (pid : String) (gout : Game)
    (hs : leaveGame g pid = some gout) (hinv : TurnInv g) : TurnInv gout := by
  obtain ⟨i1, i2, i3, i4⟩ := hinv
  unfold leaveGame at hs
  cases hidx : g.players.findIdx? (fun p => p.id == pid) with
  | none =>
    simp only [hidx] at hs
    simp at hs
  | some i =>
    simp only [hidx] at hs
    by_cases h1 : (g.status != "finished") = true
    · rw [if_pos h1] at hs
      simp only [Option.some.injEq] at hs
      subst hs
      refine ⟨?_, ?_, ?_, fun ht => ⟨?_, ?_⟩⟩
      · intro hp
        have hp' : ("finished" : String) = "playing" := hp
        exact absurd hp' (by decide)
      · intro hw
        have hw' : ("finished" : String) = "waiting" := hw
        exact absurd hw' (by decide)
      · show g.players.length ≤ 6
        exact i3
      · show ("finished" : String) ≠ "waiting"
        decide
      · show g.players.length ≤ 1
        exact (i4 ht).2
    · rw [if_neg h1] at hs
      have hf : g.status = "finished" := by simpa [bne_iff_ne, not_not] using h1
      simp only [Option.some.injEq] at hs
      subst hs
      refine ⟨?_, ?_, ?_, fun ht => ⟨?_, ?_⟩⟩
      · intro hp
        have hp' : g.status = "playing" := hp
        rw [hf] at hp'
        exact absurd hp' (by decide)
      · intro hw
        have hw' : g.status = "waiting" := hw
        rw [hf] at hw'
        exact absurd hw' (by decide)
      · show (g.players.eraseIdx i).length ≤ 6
        rw [List.length_eraseIdx]
        split <;> omega
      · show g.status ≠ "waiting"
        rw [hf]
        decide
      · show (g.players.eraseIdx i).length ≤ 1
        have := (i4 ht).2
        rw [List.length_eraseIdx]
        split <;> omega

/-- A summary-screen leave from a finished game preserves the invariant. -/
theorem leaveGameFromSummary_inv (g : Game) (pid : String) (gout : Game)
    (hfin : g.status = "finished")
    (hs : leaveGameFromSummary g pid = some gout) (hinv : TurnInv g) : TurnInv gout := by
  obtain ⟨i1, i2, i3, i4⟩ := hinv
  unfold leaveGameFromSummary at hs
  cases hidx : g.players.findIdx? (fun p => p.id == pid) with
  | none =>
    simp only [hidx] at hs
    simp at hs
  | some i =>
    simp only [hidx] at hs
    simp only [Option.some.injEq] at hs
    subst hs
    refine ⟨?_, ?_, ?_, fun ht => ⟨?_, ?_⟩⟩
    · intro hp
      have hp' : g.status = "playing" := hp
      rw [hfin] at hp'
      exact absurd hp' (by decide)
    · intro hw
      have hw' : g.status = "waiting" := hw
      rw [hfin] at hw'
      exact absurd hw' (by decide)
    · show (g.players.eraseIdx i).length ≤ 6
      rw [List.length_eraseIdx]
      split <;> omega
    · show g.status ≠ "waiting"
      rw [hfin]
      decide
    · show (g.players.eraseIdx i).length ≤ 1
      have := (i4 ht).2
      rw [List.length_eraseIdx]
      split <;> omega

/-- An accepted `updateHandOrder` preserves the invariant. -/
theorem updateHandOrder_inv (g : Game) (pid : String) (hand : List Card) (gout : Game)
    (hs : updateHandOrder g pid hand = some gout) (hinv : TurnInv g) : TurnInv gout := by
  obtain ⟨i1, i2, i3, i4⟩ := hinv
  unfold updateHandOrder at hs
  cases hfp : findPlayer g.players pid with
  | none =>
    simp only [hfp] at hs
    simp at hs
  | some player =>
    simp only [hfp] at hs
    by_cases hc : ((sortIds (player.hand.map cardId)).length != (sortIds (hand.map cardId)).length || sortIds (player.hand.map cardId) != sortIds (hand.map cardId)) = true
    · rw [if_pos hc] at hs
      simp at hs
    · rw [if_neg hc] at hs
      simp only [Option.some.injEq] at hs
      subst hs
      simp only [Bool.or_eq_true, bne_iff_ne, not_or, not_not] at hc
      have hceq : sortIds (player.hand.map cardId) = sortIds (hand.map cardId) := hc.2
      have hlen : hand.length = player.hand.length := by
        have hx := congrArg List.length hceq
        rw [length_sortIds, length_sortIds, List.length_map, List.length_map] at hx
        exact hx.symm
      refine ⟨?_, ?_, ?_, fun ht => ⟨?_, ?_⟩⟩
      · intro hp
        have hgp : g.status = "playing" := hp
        obtain ⟨q, hq1, hq2⟩ := i1 hgp
        show ∃ p, (modifyFirstHand g.players pid hand).get? g.currentTurn = some p ∧ p.hand ≠ []
        rw [List.get?_eq_getElem?] at hq1 ⊢
        rcases getElem?_modifyFirstHand g.players pid hand g.currentTurn with hsame | ⟨r, hr1, hr2, hr3⟩
        · exact ⟨q, by rw [hsame]; exact hq1, hq2⟩
        · refine ⟨{ r with hand := hand }, hr3, ?_⟩
          rw [hfp] at hr2
          obtain rfl := Option.some.inj hr2
          rw [hq1] at hr1
          obtain rfl := Option.some.inj hr1
          show hand ≠ []
          intro hcon
          rw [hcon] at hlen
          simp only [List.length_nil] at hlen
          exact hq2 (List.length_eq_zero.mp hlen.symm)
      · intro hw
        have hgw : g.status = "waiting" := hw
        show g.deck ≠ []
        exact i2 hgw
      · show (modifyFirstHand g.players pid hand).length ≤ 6
        rw [length_modifyFirstHand]
        exact i3
      · show g.status ≠ "waiting"
        exact (i4 ht).1
      · show (modifyFirstHand g.players pid hand).length ≤ 1
        rw [length_modifyFirstHand]
        exact (i4 ht).2

/-- Every freshly created game satisfies the invariant. -/
theorem initial_inv (g : Game) (h : Initial g) : TurnInv g := by
  rcases h with ⟨gid, name, rfl⟩ | ⟨gid, name, shuffled, g2, hshuf, hs, rfl⟩
  · refine ⟨?_, ?_, ?_, ?_⟩
    · intro hp
      have hp' : ("waiting" : String) = "playing" := hp
      exact absurd hp' (by decide)
    · intro _
      show createDeck ≠ []
      decide
    · show (1 : Nat) ≤ 6
      decide
    · intro ht
      have ht' : false = true := ht
      exact absurd ht' (by decide)
  · have hshufne : shuffled ≠ [] := by
      intro hcon
      have hx := hshuf.length_eq
      rw [hcon] at hx
      have hy : (55 : Nat) = 0 := by
        rw [show createDeck.length = 55 from by decide] at hx
        simpa using hx.symm
      exact absurd hy (by decide)
    refine GS_startGame_inv (createGame gid name true) shuffled [0] _ hs hshufne ?_ ?_ ?_ ?_
    · show ([0] : List Nat).Perm (List.range 1)
      have h01 : List.range 1 = [0] := rfl
      rw [h01]
    · show (1 : Nat) ≠ 0
      decide
    · show (1 : Nat) ≤ 6
      decide
    · intro _
      show (1 : Nat) ≤ 1
      decide

/-- The invariant is preserved along any sequence of well-used accepted
commands. -/
theorem reachableOK_inv (g0 g : Game) (h0 : TurnInv g0) (hr : ReachableOK g0 g) :
    TurnInv g := by
  have hr' : Relation.ReflTransGen StepOK g0 g := hr
  clear hr
  induction hr' with
  | refl => exact h0
  | tail _ hstep ih =>
    cases hstep with
    | join a b h => exact joinGame_inv _ _ _ h ih
    | startManually a b c d h1 h2 h3 =>
      exact GS_startGameManually_inv _ _ _ _ _ h3 h1 h2 ih
    | play a b c d h => exact GS_playPattern_inv _ _ _ _ _ h ih
    | passTurn a b h => exact pass_inv _ _ _ h ih
    | restart a b c d h1 h2 h3 =>
      exact GS_restartGame_inv _ _ _ _ _ h3 h1 h2 ih
    | leave a b h => exact leaveGame_inv _ _ _ h ih
    | leaveSummary a b hfin h => exact leaveGameFromSummary_inv _ _ _ hfin h ih
    | handOrder a b c h => exact updateHandOrder_inv _ _ _ _ h ih

/-! ## C6 — the turn-validity invariant -/

/-- C6 counterexample: from a fresh non-test game, two joins, a manual
start, two accepted plays and a summary-screen leave — every transition an
accepted command of the service — produce a game that is still `playing`
whose `currentTurn` (seat 2) is out of range for its two remaining seats,
refuting the claimed invariant as stated. -/
theorem c6_counterexample :
    Initial cg0 ∧ Reachable cg0 cg6 ∧ cg6.status = "playing" ∧
    cg6.players.length ≤ cg6.currentTurn := by
  refine ⟨?_, ?_, by decide, by decide⟩
  · unfold Initial
    exact Or.inl ⟨"g", "A", rfl⟩
  · have s1 : Step cg0 cg1 := Step.join cg0 "B" cg1 (by decide)
    have s2 : Step cg1 cg2 := Step.join cg1 "C" cg2 (by decide)
    have s3 : Step cg2 cg3 :=
      Step.startManually cg2 "g-A" createDeck [0, 1, 2] cg3
        (List.Perm.refl createDeck)
        (List.Perm.refl [0, 1, 2])
        (by decide)
    have s4 : Step cg3 cg4 := Step.play cg3 "g-A" cardsA handA cg4 (by decide)
    have s5 : Step cg4 cg5 := Step.play cg4 "g-B" cardsB handB cg5 (by decide)
    have s6 : Step cg5 cg6 := Step.leaveSummary cg5 "g-A" cg6 (by decide)
    show Relation.ReflTransGen Step cg0 cg6
    exact .tail (.tail (.tail (.tail (.tail (.tail .refl s1) s2) s3) s4) s5) s6

/-- C6 (amended): restricted to runs in which the summary-screen leave is
only issued on finished games, every game reachable from a fresh game by
accepted commands has, while `playing`, a `currentTurn` that addresses a
seated player holding a non-empty hand (so a player with an empty hand is
never selected as current turn). -/
theorem c6_amended (g0 g : Game) (h0 : Initial g0) (hr : ReachableOK g0 g)
    (hp : g.status = "playing") :
    ∃ p, g.players.get? g.currentTurn = some p ∧ p.hand ≠ [] :=
  (reachableOK_inv g0 g (initial_inv g0 h0) hr).1 hp

/-- C6 witness: the amended invariant instantiated on the three-player game
right after its manual start. -/
theorem c6_witness :
    cg3.status = "playing" ∧
    ∃ p, cg3.players.get? cg3.currentTurn = some p ∧ p.hand ≠ [] := by
  refine ⟨by decide, ?_⟩
  have s1 : StepOK cg0 cg1 := StepOK.join cg0 "B" cg1 (by decide)
  have s2 : StepOK cg1 cg2 := StepOK.join cg1 "C" cg2 (by decide)
  have s3 : StepOK cg2 cg3 :=
    StepOK.startManually cg2 "g-A" createDeck [0, 1, 2] cg3
      (List.Perm.refl createDeck)
      (List.Perm.refl [0, 1, 2])
      (by decide)
  exact c6_amended cg0 cg3 (Or.inl ⟨"g", "A", rfl⟩)
    (show Relation.ReflTransGen StepOK cg0 cg3 from .tail (.tail (.tail .refl s1) s2) s3)
    (by decide)
